import Mathlib

/-!
# Verification of the GeoCache offline route-planning engine

A shallow embedding of the route-planning core of
`src/js/pathfinding.js` (the `Pathfinder` module): haversine geodesic
distance, the spatial graph with its grid builder and nearest-node
lookup, the A* search, and the route service with its distance/duration
formatting.  JavaScript numbers are idealised as real numbers; the
JavaScript heap of mutable `Node` objects is embedded as a store
(a list of node records in `Map` insertion order) in which object
references are represented by node ids, and the in-place mutation of
search scratch fields becomes explicit store passing.
-/

open Real

namespace GeoCache


/-- A geographic coordinate `{lat, lng}` in degrees, as the plain
`{lat, lng}` object literals of `pathfinding.js`. -/
structure Coord where
  lat : ℝ
  lng : ℝ

/-- `toRadians(degrees)` from `pathfinding.js`: `degrees * (Math.PI / 180)`. -/
noncomputable def toRadians (degrees : ℝ) : ℝ := degrees * (π / 180)

/-- JavaScript `Math.atan2(y, x)` on real numbers (the NaN/signed-zero
cases of IEEE floats are outside the real-number idealisation; on the
reals, `atan2 0 0 = 0` as for JavaScript's `+0`). -/
noncomputable def atan2 (y x : ℝ) : ℝ :=
  if 0 < x then arctan (y / x)
  else if x < 0 then (if 0 ≤ y then arctan (y / x) + π else arctan (y / x) - π)
  else if 0 < y then π / 2
  else if y < 0 then -(π / 2)
  else 0

/-- `haversineDistance(lat1, lng1, lat2, lng2)` from `pathfinding.js`:
great-circle distance in kilometres with Earth radius `R = 6371`. -/
noncomputable def haversineDistance (lat1 lng1 lat2 lng2 : ℝ) : ℝ :=
  let R : ℝ := 6371
  let dLat := toRadians (lat2 - lat1)
  let dLng := toRadians (lng2 - lng1)
  let a := sin (dLat / 2) * sin (dLat / 2) +
    cos (toRadians lat1) * cos (toRadians lat2) *
    sin (dLng / 2) * sin (dLng / 2)
  let c := 2 * atan2 (sqrt a) (sqrt (1 - a))
  R * c

/-! ### The haversine formula is a pseudometric

`haversineDistance` equals `6371 * arccos` of the dot product of the two
unit sphere vectors, for arbitrary real inputs.  From this form we get
nonnegativity and the triangle inequality, which make the geodesic
heuristic of the A* search admissible and consistent. -/

/-- Unit vector on the sphere for a latitude/longitude pair in degrees. -/
noncomputable def sphVec (lat lng : ℝ) : ℝ × ℝ × ℝ :=
  (cos (toRadians lat) * cos (toRadians lng),
   cos (toRadians lat) * sin (toRadians lng),
   sin (toRadians lat))

/-- Euclidean dot product on ℝ³ (as nested pairs). -/
def dot3 (p q : ℝ × ℝ × ℝ) : ℝ :=
  p.1 * q.1 + p.2.1 * q.2.1 + p.2.2 * q.2.2

/-- Scalar triple product (determinant of the three vectors). -/
def det3 (p q r : ℝ × ℝ × ℝ) : ℝ :=
  p.1 * (q.2.1 * r.2.2 - q.2.2 * r.2.1) -
  p.2.1 * (q.1 * r.2.2 - q.2.2 * r.1) +
  p.2.2 * (q.1 * r.2.1 - q.2.1 * r.1)

/-! ### The spatial graph

`Node` and `Graph` from `pathfinding.js`.  The JavaScript heap of
mutable node objects is embedded as the graph's node list in `Map`
insertion order; object references (in `neighbors`, `parent`, the open
set) are embedded as node ids, which coincide with references whenever
every node is stored in the map under its own id and ids are unique
(`Graph.WF` below) — true for every graph built through the module's
API. -/

/-- A `Node` of `pathfinding.js`: position, search scratch fields
`g`, `h`, `f`, `parent`, and the adjacency list. -/
structure Node where
  id : String
  lat : ℝ
  lng : ℝ
  g : ℝ
  h : ℝ
  f : ℝ
  parent : Option String
  neighbors : List String

instance : Inhabited Node := ⟨⟨"", 0, 0, 0, 0, 0, none, []⟩⟩

/-- The `Node` constructor (`new Node(lat, lng, id)`) with an explicit
id, as used by `createGridGraph`.  (The derived default id
`` `${lat},${lng}` `` for an omitted/empty id is not exercised by any
claim and is not modelled.) -/
def Node.make (lat lng : ℝ) (id : String) : Node :=
  ⟨id, lat, lng, 0, 0, 0, none, []⟩

/-- `node.distanceTo(other)` from `pathfinding.js`. -/
noncomputable def Node.distanceTo (a other : Node) : ℝ :=
  haversineDistance a.lat a.lng other.lat other.lng

/-- The `Graph` of `pathfinding.js`: its `Map` of nodes, kept in
insertion order. -/
structure Graph where
  nodes : List Node

/-- JavaScript `Map.set` keyed by node id: replace in place if the key
exists, else append. -/
def setNode : List Node → Node → List Node
  | [], n => [n]
  | m :: ms, n => if m.id = n.id then n :: ms else m :: setNode ms n

/-- `graph.addNode(lat, lng, id)`. -/
def Graph.addNode (G : Graph) (lat lng : ℝ) (id : String) : Graph × Node :=
  let node := Node.make lat lng id
  (⟨setNode G.nodes node⟩, node)

/-- Dereference a node id in a store: the first stored node carrying
this id (`Map.get`, resolving an object reference). -/
def findNode (σ : List Node) (id : String) : Option Node :=
  σ.find? (fun n => n.id == id)

/-- `graph.getNode(id)` (`Map.get`): the stored node with this id. -/
def Graph.getNode (G : Graph) (id : String) : Option Node :=
  findNode G.nodes id

/-- Mutation of the node object stored under `id`: apply `φ` to it in
place. -/
def updateNode (nodes : List Node) (id : String) (φ : Node → Node) : List Node :=
  nodes.map (fun n => if n.id = id then φ n else n)

/-- `graph.addEdge(nodeId1, nodeId2)`: if both ids are present, append
each node to the other's neighbor list (undirected, no deduplication);
otherwise do nothing. -/
def Graph.addEdge (G : Graph) (nodeId1 nodeId2 : String) : Graph :=
  match G.getNode nodeId1, G.getNode nodeId2 with
  | some _, some _ =>
      ⟨updateNode
        (updateNode G.nodes nodeId1 fun n => { n with neighbors := n.neighbors ++ [nodeId2] })
        nodeId2 fun n => { n with neighbors := n.neighbors ++ [nodeId1] }⟩
  | _, _ => G

/-- One step of the `findClosestNode` scan.  The JavaScript loop starts
from `closest = null, minDistance = Infinity`; on the reals every
distance satisfies `distance < Infinity`, which the `none` case
captures. -/
noncomputable def closerStep (lat lng : ℝ) (acc : Option (Node × ℝ)) (node : Node) :
    Option (Node × ℝ) :=
  match acc with
  | none => some (node, haversineDistance lat lng node.lat node.lng)
  | some (closest, minDistance) =>
      if haversineDistance lat lng node.lat node.lng < minDistance then
        some (node, haversineDistance lat lng node.lat node.lng)
      else some (closest, minDistance)

/-- `graph.findClosestNode(lat, lng)`: linear scan in insertion order,
keeping the node with strictly smaller distance. -/
noncomputable def Graph.findClosestNode (G : Graph) (lat lng : ℝ) : Option Node :=
  (G.nodes.foldl (closerStep lat lng) none).map Prod.fst

/-- Concrete fixture: a single node at the origin. -/
def nodeA : Node := ⟨"a", 0, 0, 0, 0, 0, none, []⟩

/-- Concrete fixture: a second node at the origin, no edges. -/
def nodeB : Node := ⟨"b", 0, 0, 0, 0, 0, none, []⟩

/-- Concrete fixture: a two-node graph with no edges. -/
def twoNodeGraph : Graph := ⟨[nodeA, nodeB]⟩

/-! ### The A* search

`aStar(start, goal)` from `pathfinding.js`.  The JavaScript `while`
loop becomes fuel-indexed recursion; the fuel `σ.length + 1` is proved
sufficient below (each iteration moves a fresh store id into the closed
set).  The open set and closed set hold node ids; the store `σ` is
threaded explicitly in place of heap mutation. -/

/-- The current `f` score of the node an open-set entry refers to
(reads the live object's `f` field; the default is never reached when
every open id is in the store). -/
noncomputable def fscore (σ : List Node) (id : String) : ℝ :=
  ((findNode σ id).getD default).f

/-- The minimum-`f` scan over the open set (`for` loop with strict
`<`, so the first entry attaining the minimum is kept). -/
noncomputable def pickMin (σ : List Node) : String → List String → String
  | best, [] => best
  | best, x :: xs =>
      if fscore σ x < fscore σ best then pickMin σ x xs else pickMin σ best xs

/-- Relaxation of one neighbor of `curN` (the body of the
`for (const neighbor of current.neighbors)` loop): skip closed
neighbors, push undiscovered ones onto the open set, and rewrite
`parent`, `g`, `h`, `f` unless the neighbor is already in the open set
with a no-worse `g`. -/
noncomputable def relaxNbr (goal curN : Node) (closedSet : List String)
    (st : List Node × List String) (nbrId : String) : List Node × List String :=
  if nbrId ∈ closedSet then st
  else
    match findNode st.1 nbrId with
    | none => st
    | some nbr =>
        let tentativeG := curN.g + curN.distanceTo nbr
        if nbrId ∈ st.2 ∧ tentativeG ≥ nbr.g then st
        else
          (updateNode st.1 nbrId fun n =>
            { n with parent := some curN.id, g := tentativeG,
                     h := nbr.distanceTo goal,
                     f := tentativeG + nbr.distanceTo goal },
           if nbrId ∈ st.2 then st.2 else st.2 ++ [nbrId])

/-- Relax all neighbors of the node just moved to the closed set. -/
noncomputable def expand (goal curN : Node) (closedSet : List String)
    (σ : List Node) (openSet : List String) : List Node × List String :=
  curN.neighbors.foldl (relaxNbr goal curN closedSet) (σ, openSet)

/-- `reconstructPath(node)`: follow `parent` references back to the
start, collecting `{lat, lng}` coordinates front to back.  The fuel
bounds the chain length (the JavaScript `while (current)` loop; under
the search's invariants parent chains are acyclic and shorter than the
fuel supplied, and dangling parent ids do not occur). -/
noncomputable def reconstructPath (σ : List Node) : ℕ → Node → List Coord
  | 0, node => [⟨node.lat, node.lng⟩]
  | fuel + 1, node =>
      match node.parent with
      | none => [⟨node.lat, node.lng⟩]
      | some p =>
          match findNode σ p with
          | none => [⟨node.lat, node.lng⟩]
          | some pn => reconstructPath σ fuel pn ++ [⟨node.lat, node.lng⟩]

/-- The A* `while (openSet.length > 0)` loop.  Each iteration selects
the minimum-`f` open node; if it carries the goal's id the path is
reconstructed, otherwise it is moved from the open to the closed set
and its neighbors are relaxed. -/
noncomputable def aStarLoop (goal : Node) :
    ℕ → List Node → List String → List String → Option (List Coord) × List Node
  | 0, σ, _, _ => (none, σ)
  | fuel + 1, σ, openSet, closedSet =>
      match openSet with
      | [] => (none, σ)
      | o :: os =>
          let current := pickMin σ o os
          match findNode σ current with
          | none => (none, σ)
          | some curN =>
              if current = goal.id then
                (some (reconstructPath σ (σ.length + 1) curN), σ)
              else
                let closedSet2 := closedSet ++ [current]
                let st := expand goal curN closedSet2 σ (openSet.erase current)
                aStarLoop goal fuel st.1 st.2 closedSet2

/-- `aStar(start, goal)`: `null` checks, initialisation of the start
node's scratch fields (`g = 0`, `h = f = distance to goal`), then the
search loop from `openSet = [start]`, `closedSet = {}`. -/
noncomputable def aStar (σ : List Node) (start goal : Option Node) :
    Option (List Coord) × List Node :=
  match start, goal with
  | some s, some goalN =>
      let σ₀ := updateNode σ s.id fun n =>
        { n with g := 0, h := s.distanceTo goalN, f := s.distanceTo goalN }
      aStarLoop goalN (σ.length + 1) σ₀ [s.id] []
  | _, _ => (none, σ)

/-- The structural part of a node: everything except the search
scratch fields `g`, `h`, `f`, `parent`. -/
def structProj (n : Node) : String × ℝ × ℝ × List String :=
  (n.id, n.lat, n.lng, n.neighbors)

/-! ### Grid graph construction

`createGridGraph(center, radiusKm, gridSize)` from `pathfinding.js`:
a `gridSize × gridSize` lattice with ids `"i,j"`, rows built in
row-major insertion order, then edges to the right, down, and the two
downward diagonals of each cell. -/

/-- Decimal digit rendering helper (fuel-indexed; `fuel > n` always
suffices). -/
def natStrCore : ℕ → ℕ → List Char
  | 0, _ => []
  | fuel + 1, n =>
      if n < 10 then [Nat.digitChar n]
      else natStrCore fuel (n / 10) ++ [Nat.digitChar (n % 10)]

/-- Decimal rendering of a natural number, as JavaScript template
literals produce for the integer grid indices. -/
def natStr (n : ℕ) : String := ⟨natStrCore (n + 1) n⟩

/-- The node id `` `${i},${j}` `` of grid cell `(i, j)`. -/
def gridId (i j : ℕ) : String := natStr i ++ "," ++ natStr j

/-- The grid cells `(i, j)` in the row-major order of the two nested
`for` loops. -/
def gridCells (N : ℕ) : List (ℕ × ℕ) :=
  (List.range N).flatMap fun i => (List.range N).map fun j => (i, j)

/-- Creation of the node of one grid cell (`this.addNode(lat, lng,
`` `${i},${j}` ``)` with the flat-Earth lattice coordinates). -/
noncomputable def gridNodeStep (center : Coord) (radiusKm : ℝ) (gridSize : ℤ)
    (g : Graph) (c : ℕ × ℕ) : Graph :=
  let latStep := (radiusKm / 111) / (gridSize : ℝ)
  let lngStep := (radiusKm / (111 * Real.cos (center.lat * π / 180))) / (gridSize : ℝ)
  let lat := center.lat - (radiusKm / 111) / 2 + (c.1 : ℝ) * latStep
  let lng := center.lng - (radiusKm / (111 * Real.cos (center.lat * π / 180))) / 2 +
    (c.2 : ℝ) * lngStep
  (g.addNode lat lng (gridId c.1 c.2)).1

/-- The edge insertions of one grid cell: right, down, and the two
downward diagonals, clipped at the boundary.  (For cells of the grid,
`j + 1 < N` is the JavaScript `j < gridSize - 1`, and `0 < j` is
`j > 0`.) -/
def gridEdgeStep (N : ℕ) (g : Graph) (c : ℕ × ℕ) : Graph :=
  let i := c.1
  let j := c.2
  let g1 := if j + 1 < N then g.addEdge (gridId i j) (gridId i (j + 1)) else g
  let g2 := if i + 1 < N then g1.addEdge (gridId i j) (gridId (i + 1) j) else g1
  let g3 := if i + 1 < N ∧ j + 1 < N then
    g2.addEdge (gridId i j) (gridId (i + 1) (j + 1)) else g2
  if i + 1 < N ∧ 0 < j then g3.addEdge (gridId i j) (gridId (i + 1) (j - 1)) else g3

/-- `graph.createGridGraph(center, radiusKm, gridSize)`: create all
`gridSize²` nodes in row-major order, then connect neighboring cells.
A nonpositive `gridSize` runs neither loop. -/
noncomputable def Graph.createGridGraph (G : Graph) (center : Coord) (radiusKm : ℝ)
    (gridSize : ℤ) : Graph :=
  let cells := gridCells gridSize.toNat
  let G1 := cells.foldl (gridNodeStep center radiusKm gridSize) G
  cells.foldl (gridEdgeStep gridSize.toNat) G1

/-! ### The route service

`calculateRoute(origin, destination, graph)` and
`createDirectPath(origin, destination)` from `pathfinding.js`.  The
`try/catch` of `calculateRoute` turns its two `throw` statements into
tagged failure results; the embedding is a total function producing the
same tagged union, so no exception escapes.  The two string templates
of `distanceText` (meters / kilometers) and `durationText` (minutes /
hours+minutes) are embedded as tagged values carrying the numbers
interpolated into the template. -/

/-- `AVERAGE_SPEED_KMH` from `pathfinding.js`. -/
def AVERAGE_SPEED_KMH : ℝ := 50

/-- JavaScript `Math.round` on the reals: round half toward positive
infinity. -/
noncomputable def jsRound (x : ℝ) : ℤ := ⌊x + 1 / 2⌋

/-- The two `distanceText` templates: `` `${Math.round(d * 1000)} m` ``
and `` `${d.toFixed(2)} km` ``. -/
inductive DistanceText where
  | meters (m : ℤ)
  | kilometers (d : ℝ)

/-- The two `durationText` templates: `` `${m} min` `` and
`` `${Math.floor(m / 60)}h ${m % 60}m` `` (JavaScript `%` truncates
toward zero). -/
inductive DurationText where
  | minutes (m : ℤ)
  | hoursMinutes (hrs mins : ℤ)

/-- The distance/duration formatting ternaries shared verbatim by
`calculateRoute` and `createDirectPath`. -/
noncomputable def distanceTextOf (d : ℝ) : DistanceText :=
  if d < 1 then .meters (jsRound (d * 1000)) else .kilometers d

noncomputable def durationTextOf (m : ℤ) : DurationText :=
  if m < 60 then .minutes m else .hoursMinutes ⌊(m : ℝ) / 60⌋ (Int.tmod m 60)

/-- The tagged union returned by the route operations: the success
object (with `success: true`) or the catch-block object
(`success: false` plus the error message). -/
inductive RouteResult where
  | ok (path : List Coord) (distance : ℝ) (distanceText : DistanceText)
      (duration : ℤ) (durationText : DurationText)
  | err (error : String)

/-- The `success` flag of a route result. -/
def RouteResult.success : RouteResult → Bool
  | .ok .. => true
  | .err _ => false

/-- The total-distance loop: sum of consecutive-point haversine
distances along a path. -/
noncomputable def totalDistanceOf : List Coord → ℝ
  | [] => 0
  | [_] => 0
  | a :: b :: rest => haversineDistance a.lat a.lng b.lat b.lng + totalDistanceOf (b :: rest)

/-- `createDirectPath(origin, destination)`. -/
noncomputable def createDirectPath (origin destination : Coord) : RouteResult :=
  let path := [origin, destination]
  let distance := haversineDistance origin.lat origin.lng destination.lat destination.lng
  let estimatedMinutes := jsRound (distance / AVERAGE_SPEED_KMH * 60)
  .ok path distance (distanceTextOf distance) estimatedMinutes
    (durationTextOf estimatedMinutes)

/-- The graph used by `calculateRoute`: the supplied one, or the
default 15×15 grid centered at the origin/destination midpoint with
radius `max(1.5 × direct distance, 5 km)`. -/
noncomputable def usedGraph (origin destination : Coord) (graph : Option Graph) : Graph :=
  match graph with
  | some g => g
  | none =>
      let centerLat := (origin.lat + destination.lat) / 2
      let centerLng := (origin.lng + destination.lng) / 2
      let distance := haversineDistance origin.lat origin.lng destination.lat destination.lng
      let radius := max (distance * 1.5) 5
      Graph.createGridGraph ⟨[]⟩ ⟨centerLat, centerLng⟩ radius 15

/-- `calculateRoute(origin, destination, graph)`. -/
noncomputable def calculateRoute (origin destination : Coord) (graph : Option Graph) :
    RouteResult :=
  let G := usedGraph origin destination graph
  match G.findClosestNode origin.lat origin.lng with
  | none => .err "Could not find route nodes"
  | some startNode =>
      match G.findClosestNode destination.lat destination.lng with
      | none => .err "Could not find route nodes"
      | some goalNode =>
          match (aStar G.nodes (some startNode) (some goalNode)).1 with
          | none => .err "No path found"
          | some path =>
              let totalDistance := totalDistanceOf path
              let estimatedMinutes := jsRound (totalDistance / AVERAGE_SPEED_KMH * 60)
              .ok path totalDistance (distanceTextOf totalDistance)
                estimatedMinutes (durationTextOf estimatedMinutes)

/-! ### The node-creation phase of `createGridGraph` -/

/-- The node created for grid cell `c` (the `addNode` argument values
of the first loop). -/
noncomputable def gridNode (center : Coord) (radiusKm : ℝ) (gridSize : ℤ)
    (c : ℕ × ℕ) : Node :=
  Node.make
    (center.lat - (radiusKm / 111) / 2 +
      (c.1 : ℝ) * ((radiusKm / 111) / (gridSize : ℝ)))
    (center.lng - (radiusKm / (111 * Real.cos (center.lat * π / 180))) / 2 +
      (c.2 : ℝ) * ((radiusKm / (111 * Real.cos (center.lat * π / 180))) / (gridSize : ℝ)))
    (gridId c.1 c.2)

/-! ### The edge-insertion phase of `createGridGraph` -/

/-- The neighbor-list entries one `addEdge(e.1, e.2)` call appends to
the node stored under `id` (both entries when the edge is a self
loop). -/
def edgeContrib (e : String × String) (id : String) : List String :=
  (if e.1 = id then [e.2] else []) ++ (if e.2 = id then [e.1] else [])

/-- The (up to four) `addEdge` calls of grid cell `c`, in program
order. -/
def cellEdges (N : ℕ) (c : ℕ × ℕ) : List (String × String) :=
  (if c.2 + 1 < N then [(gridId c.1 c.2, gridId c.1 (c.2 + 1))] else []) ++
  (if c.1 + 1 < N then [(gridId c.1 c.2, gridId (c.1 + 1) c.2)] else []) ++
  (if c.1 + 1 < N ∧ c.2 + 1 < N then
    [(gridId c.1 c.2, gridId (c.1 + 1) (c.2 + 1))] else []) ++
  (if c.1 + 1 < N ∧ 0 < c.2 then
    [(gridId c.1 c.2, gridId (c.1 + 1) (c.2 - 1))] else [])

/-- A sequence of `addEdge` calls. -/
def addEdges (G : Graph) (es : List (String × String)) : Graph :=
  es.foldl (fun g e => g.addEdge e.1 e.2) G

/-! ### Paths in a store, and basic store lemmas for the A* proofs -/

/-- Well-formedness of a store, true of every graph built through the
module's API: unique node ids, and every neighbor entry refers to a
stored node. -/
def WF (σ : List Node) : Prop :=
  (σ.map Node.id).Nodup ∧ ∀ nd ∈ σ, ∀ nb ∈ nd.neighbors, nb ∈ σ.map Node.id

instance (σ : List Node) : Decidable (WF σ) := by
  unfold WF
  infer_instance

/-- The node a stored id refers to (`default` when absent; all uses are
guarded by presence). -/
def nodeAt (σ : List Node) (id : String) : Node := (findNode σ id).getD default

/-- The `{lat, lng}` coordinate of a stored node. -/
def coordAt (σ : List Node) (id : String) : Coord :=
  ⟨(nodeAt σ id).lat, (nodeAt σ id).lng⟩

/-- Geodesic cost of the edge between two stored nodes. -/
noncomputable def distId (σ : List Node) (a b : String) : ℝ :=
  haversineDistance (nodeAt σ a).lat (nodeAt σ a).lng (nodeAt σ b).lat (nodeAt σ b).lng

/-- A nonempty id sequence each consecutive pair of which is linked by
a declared neighbor entry. -/
def ValidPath (σ : List Node) (q : List String) : Prop :=
  q ≠ [] ∧ List.Chain' (fun a b => b ∈ (nodeAt σ a).neighbors) q

/-- Summed geodesic edge cost along an id path. -/
noncomputable def idPathCost (σ : List Node) : List String → ℝ
  | [] => 0
  | [_] => 0
  | a :: b :: rest => distId σ a b + idPathCost σ (b :: rest)

/-- The relaxation postcondition for one closed node `u` over a set of
neighbor entries: every such neighbor not in the closed set is in the
open set with a `g` no worse than relaxing through `u`. -/
def Expanded (σ : List Node) (openL closed : List String) (u : String)
    (nbrs : List String) : Prop :=
  ∀ nb ∈ nbrs, nb ∉ closed →
    nb ∈ openL ∧
    (nodeAt σ nb).g ≤ (nodeAt σ u).g +
      haversineDistance (nodeAt σ u).lat (nodeAt σ u).lng
        (nodeAt σ nb).lat (nodeAt σ nb).lng

/-- The invariant of the A* loop, relative to the original store `σ0`,
goal snapshot `t` and start id `sid`.  `closedE` is the sublist of
closed nodes whose neighbors have already been relaxed (the whole
closed set between iterations; during an expansion the just-closed
node joins it neighbor by neighbor). -/
structure AInv (σ0 : List Node) (t : Node) (sid : String) (σ : List Node)
    (openL closed closedE : List String) : Prop where
  frame : σ.map structProj = σ0.map structProj
  idsNodup : (σ0.map Node.id).Nodup
  closure : ∀ nd ∈ σ0, ∀ nb ∈ nd.neighbors, nb ∈ σ0.map Node.id
  tFound : findNode σ0 t.id = some t
  openNodup : openL.Nodup
  closedNodup : closed.Nodup
  disj : ∀ x ∈ openL, x ∉ closed
  openSub : ∀ x ∈ openL, x ∈ σ0.map Node.id
  closedSub : ∀ x ∈ closed, x ∈ σ0.map Node.id
  closedESub : ∀ x ∈ closedE, x ∈ closed
  goalOpen : t.id ∉ closed
  startMem : sid ∈ openL ∨ sid ∈ closed
  startG : (nodeAt σ sid).g = 0 ∧ (nodeAt σ sid).parent = none
  gNonneg : ∀ x, x ∈ openL ∨ x ∈ closed → 0 ≤ (nodeAt σ x).g
  parentProps : ∀ x, x ∈ openL ∨ x ∈ closed → x ≠ sid →
    ∃ p, (nodeAt σ x).parent = some p ∧ p ∈ closed ∧
      x ∈ (nodeAt σ p).neighbors ∧
      (nodeAt σ x).g = (nodeAt σ p).g +
        haversineDistance (nodeAt σ p).lat (nodeAt σ p).lng
          (nodeAt σ x).lat (nodeAt σ x).lng
  closedOrder : ∀ (k : ℕ) (hk : k < closed.length), closed.get ⟨k, hk⟩ ≠ sid →
    ∃ p, (nodeAt σ (closed.get ⟨k, hk⟩)).parent = some p ∧ p ∈ closed.take k
  fh : ∀ x ∈ openL,
    (nodeAt σ x).h =
      haversineDistance (nodeAt σ x).lat (nodeAt σ x).lng t.lat t.lng ∧
    (nodeAt σ x).f = (nodeAt σ x).g + (nodeAt σ x).h
  closedExpanded : ∀ u ∈ closedE, Expanded σ openL closed u (nodeAt σ u).neighbors

/-- Every closed node's `g` underapproximates the cost of every valid
start-to-it path (optimal-closure invariant). -/
def ClosedOpt (σ0 : List Node) (sid : String) (σ : List Node)
    (closed : List String) : Prop :=
  ∀ u ∈ closed, ∀ q : List String, ValidPath σ0 q → q.head? = some sid →
    q.getLast? = some u → (nodeAt σ u).g ≤ idPathCost σ0 q

/-- A parent-chain certificate: a valid id path from the start to `x`
whose cost is exactly the stored `g` and which `reconstructPath`
recovers given enough fuel. -/
def ChainTo (σ0 : List Node) (sid : String) (σ : List Node) (x : String)
    (q : List String) : Prop :=
  ValidPath σ0 q ∧ q.head? = some sid ∧ q.getLast? = some x ∧
  idPathCost σ0 q = (nodeAt σ x).g ∧
  ∀ fuel : ℕ, q.length ≤ fuel + 1 →
    reconstructPath σ fuel (nodeAt σ x) = q.map (coordAt σ)

lemma toRadians_sub_neg (x y : ℝ) : toRadians (x - y) = -(toRadians (y - x)) := by
  unfold toRadians; ring

lemma toRadians_self_sub (x : ℝ) : toRadians (x - x) = 0 := by
  unfold toRadians; ring

/-- The `a` quantity inside `haversineDistance` is symmetric in the two
coordinates. -/
lemma hav_a_symm (lat1 lng1 lat2 lng2 : ℝ) :
    sin (toRadians (lat2 - lat1) / 2) * sin (toRadians (lat2 - lat1) / 2) +
      cos (toRadians lat1) * cos (toRadians lat2) *
      sin (toRadians (lng2 - lng1) / 2) * sin (toRadians (lng2 - lng1) / 2) =
    sin (toRadians (lat1 - lat2) / 2) * sin (toRadians (lat1 - lat2) / 2) +
      cos (toRadians lat2) * cos (toRadians lat1) *
      sin (toRadians (lng1 - lng2) / 2) * sin (toRadians (lng1 - lng2) / 2) := by
  rw [toRadians_sub_neg lat2 lat1, toRadians_sub_neg lng2 lng1]
  simp only [neg_div, Real.sin_neg]
  ring

lemma atan2_zero_one : atan2 0 1 = 0 := by
  unfold atan2
  rw [if_pos (by norm_num : (0:ℝ) < 1)]
  simp [Real.arctan_zero]

lemma hav_symm (lat1 lng1 lat2 lng2 : ℝ) :
    haversineDistance lat1 lng1 lat2 lng2 = haversineDistance lat2 lng2 lat1 lng1 := by
  show (6371:ℝ) * _ = (6371:ℝ) * _
  rw [hav_a_symm lat1 lng1 lat2 lng2]

lemma hav_self (lat lng : ℝ) : haversineDistance lat lng lat lng = 0 := by
  show (6371:ℝ) * _ = 0
  simp only [toRadians_self_sub]
  norm_num [atan2_zero_one, Real.sqrt_zero, Real.sqrt_one]

/-- Two coordinate pairs with equal components are at haversine
distance `0` from each other. -/
lemma hav_eq_zero_of_eq {lat1 lng1 lat2 lng2 : ℝ} (hlat : lat1 = lat2)
    (hlng : lng1 = lng2) : haversineDistance lat1 lng1 lat2 lng2 = 0 := by
  subst hlat; subst hlng; exact hav_self _ _

/-- Claim C8: for every pair of coordinates, `haversineDistance` is
symmetric in its two coordinate arguments, and the distance from any
coordinate to itself is `0`. -/
theorem claim_C8 :
    (∀ lat1 lng1 lat2 lng2 : ℝ,
      haversineDistance lat1 lng1 lat2 lng2 = haversineDistance lat2 lng2 lat1 lng1) ∧
    (∀ lat lng : ℝ, haversineDistance lat lng lat lng = 0) :=
  ⟨hav_symm, hav_self⟩

lemma dot3_sphVec_self (lat lng : ℝ) : dot3 (sphVec lat lng) (sphVec lat lng) = 1 := by
  simp only [sphVec, dot3]
  linear_combination (cos (toRadians lat))^2 * Real.sin_sq_add_cos_sq (toRadians lng) +
    Real.sin_sq_add_cos_sq (toRadians lat)

/-- Cauchy-Schwarz for `dot3`, via the Lagrange identity. -/
lemma dot3_sq_le (p q : ℝ × ℝ × ℝ) : dot3 p q * dot3 p q ≤ dot3 p p * dot3 q q := by
  simp only [dot3]
  nlinarith [sq_nonneg (p.1 * q.2.1 - p.2.1 * q.1), sq_nonneg (p.1 * q.2.2 - p.2.2 * q.1),
    sq_nonneg (p.2.1 * q.2.2 - p.2.2 * q.2.1)]

/-- Gram determinant of three vectors in ℝ³ equals the squared triple
product (a polynomial identity). -/
lemma gram_det (p q r : ℝ × ℝ × ℝ) :
    dot3 p p * (dot3 q q * dot3 r r - dot3 q r * dot3 q r) -
      dot3 p q * (dot3 p q * dot3 r r - dot3 q r * dot3 p r) +
      dot3 p r * (dot3 p q * dot3 q r - dot3 q q * dot3 p r) =
    det3 p q r ^ 2 := by
  simp only [dot3, det3]
  ring

/-- Key inequality for the spherical triangle inequality: for unit
vectors, `(⟪p,r⟫ - ⟪p,q⟫⟪q,r⟫)² ≤ (1 - ⟪p,q⟫²)(1 - ⟪q,r⟫²)`. -/
lemma gram_key (p q r : ℝ × ℝ × ℝ) (hp : dot3 p p = 1) (hq : dot3 q q = 1)
    (hr : dot3 r r = 1) :
    (dot3 p r - dot3 p q * dot3 q r) ^ 2 ≤
      (1 - dot3 p q ^ 2) * (1 - dot3 q r ^ 2) := by
  have h := gram_det p q r
  rw [hp, hq, hr] at h
  nlinarith [sq_nonneg (det3 p q r), h]

lemma dot3_sphVec (lat1 lng1 lat2 lng2 : ℝ) :
    dot3 (sphVec lat1 lng1) (sphVec lat2 lng2) =
      cos (toRadians lat1) * cos (toRadians lat2) *
        cos (toRadians lng1 - toRadians lng2) +
      sin (toRadians lat1) * sin (toRadians lat2) := by
  simp only [sphVec, dot3, Real.cos_sub]
  ring

lemma toRadians_sub (x y : ℝ) : toRadians (x - y) = toRadians x - toRadians y := by
  unfold toRadians; ring

lemma sin_half_sq (x : ℝ) : sin (x / 2) * sin (x / 2) = (1 - cos x) / 2 := by
  have h : cos (2 * (x / 2)) = 2 * cos (x / 2) ^ 2 - 1 := Real.cos_two_mul (x / 2)
  rw [show (2:ℝ) * (x / 2) = x by ring] at h
  linear_combination Real.sin_sq_add_cos_sq (x / 2) + (1 / 2) * h

lemma cos_half_sq (x : ℝ) : cos (x / 2) * cos (x / 2) = (1 + cos x) / 2 := by
  have h : cos (2 * (x / 2)) = 2 * cos (x / 2) ^ 2 - 1 := Real.cos_two_mul (x / 2)
  rw [show (2:ℝ) * (x / 2) = x by ring] at h
  linear_combination (-1 / 2) * h

/-- The quantity `a` inside `haversineDistance` equals
`(1 - ⟪sphVec₁, sphVec₂⟫) / 2`. -/
lemma hav_a_eq (lat1 lng1 lat2 lng2 : ℝ) :
    sin (toRadians (lat2 - lat1) / 2) * sin (toRadians (lat2 - lat1) / 2) +
      cos (toRadians lat1) * cos (toRadians lat2) *
      sin (toRadians (lng2 - lng1) / 2) * sin (toRadians (lng2 - lng1) / 2) =
    (1 - dot3 (sphVec lat1 lng1) (sphVec lat2 lng2)) / 2 := by
  rw [dot3_sphVec]
  rw [sin_half_sq (toRadians (lat2 - lat1))]
  have h2 : cos (toRadians lat1) * cos (toRadians lat2) *
      sin (toRadians (lng2 - lng1) / 2) * sin (toRadians (lng2 - lng1) / 2) =
      cos (toRadians lat1) * cos (toRadians lat2) *
      ((1 - cos (toRadians (lng2 - lng1))) / 2) := by
    rw [mul_assoc, sin_half_sq (toRadians (lng2 - lng1))]
  rw [h2, toRadians_sub lat2 lat1, toRadians_sub lng2 lng1, Real.cos_sub, Real.cos_sub,
    Real.cos_sub]
  ring

lemma monotone_arccos_rev {x y : ℝ} (h : x ≤ y) : arccos y ≤ arccos x := by
  rw [Real.arccos_eq_pi_div_two_sub_arcsin, Real.arccos_eq_pi_div_two_sub_arcsin]
  have := Real.monotone_arcsin h
  linarith

/-- `atan2 (sin t) (cos t) = t` on the first quadrant. -/
lemma atan2_sin_cos {t : ℝ} (h0 : 0 ≤ t) (h1 : t ≤ π / 2) :
    atan2 (sin t) (cos t) = t := by
  rcases lt_or_eq_of_le h1 with hlt | heq
  · have hcos : 0 < cos t := by
      apply Real.cos_pos_of_mem_Ioo
      constructor
      · have := Real.pi_pos; linarith
      · exact hlt
    unfold atan2
    rw [if_pos hcos, ← Real.tan_eq_sin_div_cos]
    exact Real.arctan_tan (by have := Real.pi_pos; linarith) hlt
  · subst heq
    unfold atan2
    rw [Real.cos_pi_div_two, Real.sin_pi_div_two]
    norm_num

/-- `haversineDistance` in closed form: Earth radius times the central
angle between the two unit sphere vectors. -/
lemma hav_eq_arccos (lat1 lng1 lat2 lng2 : ℝ) :
    haversineDistance lat1 lng1 lat2 lng2 =
      6371 * arccos (dot3 (sphVec lat1 lng1) (sphVec lat2 lng2)) := by
  have hu1 := dot3_sphVec_self lat1 lng1
  have hu2 := dot3_sphVec_self lat2 lng2
  set D := dot3 (sphVec lat1 lng1) (sphVec lat2 lng2) with hD
  have hsq : D * D ≤ 1 := by
    have := dot3_sq_le (sphVec lat1 lng1) (sphVec lat2 lng2)
    rw [hu1, hu2] at this
    simpa using this
  have hD1 : -1 ≤ D := by nlinarith
  have hD2 : D ≤ 1 := by nlinarith
  set θ := arccos D with hθ
  have hθ0 : 0 ≤ θ := Real.arccos_nonneg D
  have hθπ : θ ≤ π := Real.arccos_le_pi D
  have hcosθ : cos θ = D := Real.cos_arccos hD1 hD2
  show (6371:ℝ) * (2 * atan2 _ _) = 6371 * θ
  rw [hav_a_eq lat1 lng1 lat2 lng2, ← hD]
  have hsin : sqrt ((1 - D) / 2) = sin (θ / 2) := by
    have h1 : (1 - D) / 2 = sin (θ / 2) * sin (θ / 2) := by
      rw [sin_half_sq θ, hcosθ]
    rw [h1, show sin (θ / 2) * sin (θ / 2) = sin (θ / 2) ^ 2 by ring,
      Real.sqrt_sq_eq_abs]
    exact abs_of_nonneg (Real.sin_nonneg_of_nonneg_of_le_pi (by linarith) (by linarith))
  have hcos : sqrt (1 - (1 - D) / 2) = cos (θ / 2) := by
    have h1 : 1 - (1 - D) / 2 = cos (θ / 2) * cos (θ / 2) := by
      rw [cos_half_sq θ, hcosθ]; ring
    rw [h1, show cos (θ / 2) * cos (θ / 2) = cos (θ / 2) ^ 2 by ring,
      Real.sqrt_sq_eq_abs]
    apply abs_of_nonneg
    apply Real.cos_nonneg_of_mem_Icc
    constructor
    · have := Real.pi_pos; linarith
    · linarith
  rw [hsin, hcos, atan2_sin_cos (by linarith) (by linarith)]
  ring

/-- `haversineDistance` is nonnegative. -/
lemma hav_nonneg (lat1 lng1 lat2 lng2 : ℝ) :
    0 ≤ haversineDistance lat1 lng1 lat2 lng2 := by
  rw [hav_eq_arccos]
  have := Real.arccos_nonneg (dot3 (sphVec lat1 lng1) (sphVec lat2 lng2))
  nlinarith

/-- Spherical triangle inequality for angles between unit vectors. -/
lemma arccos_dot3_triangle (p q r : ℝ × ℝ × ℝ) (hp : dot3 p p = 1)
    (hq : dot3 q q = 1) (hr : dot3 r r = 1) :
    arccos (dot3 p r) ≤ arccos (dot3 p q) + arccos (dot3 q r) := by
  set a := dot3 p q with ha
  set b := dot3 q r with hb
  set c := dot3 p r with hc
  have hasq : a * a ≤ 1 := by
    have := dot3_sq_le p q; rw [hp, hq] at this; simpa using this
  have hbsq : b * b ≤ 1 := by
    have := dot3_sq_le q r; rw [hq, hr] at this; simpa using this
  have ha1 : -1 ≤ a := by nlinarith
  have ha2 : a ≤ 1 := by nlinarith
  have hb1 : -1 ≤ b := by nlinarith
  have hb2 : b ≤ 1 := by nlinarith
  set α := arccos a with hα
  set β := arccos b with hβ
  have hα0 : 0 ≤ α := Real.arccos_nonneg a
  have hαπ : α ≤ π := Real.arccos_le_pi a
  have hβ0 : 0 ≤ β := Real.arccos_nonneg b
  have hβπ : β ≤ π := Real.arccos_le_pi b
  rcases le_or_lt (α + β) π with hle | hgt
  · have hkey := gram_key p q r hp hq hr
    have habs : |c - a * b| ≤ sqrt ((1 - a ^ 2) * (1 - b ^ 2)) := by
      rw [← Real.sqrt_sq_eq_abs]
      exact Real.sqrt_le_sqrt hkey
    have hmul : sqrt ((1 - a ^ 2) * (1 - b ^ 2)) =
        sqrt (1 - a ^ 2) * sqrt (1 - b ^ 2) :=
      Real.sqrt_mul (by nlinarith) _
    have hsinα : sin α = sqrt (1 - a ^ 2) := Real.sin_arccos a
    have hsinβ : sin β = sqrt (1 - b ^ 2) := Real.sin_arccos b
    have hcosα : cos α = a := Real.cos_arccos ha1 ha2
    have hcosβ : cos β = b := Real.cos_arccos hb1 hb2
    have hcosab : cos (α + β) ≤ c := by
      rw [Real.cos_add, hcosα, hcosβ, hsinα, hsinβ]
      have := neg_abs_le (c - a * b)
      rw [hmul] at habs
      linarith
    calc arccos c ≤ arccos (cos (α + β)) :=
          monotone_arccos_rev hcosab
      _ = α + β := Real.arccos_cos (by linarith) hle
  · have := Real.arccos_le_pi c
    linarith

/-- Triangle inequality for `haversineDistance` (for all real inputs):
the heuristic of the A* search is consistent. -/
lemma hav_triangle (lat1 lng1 lat2 lng2 lat3 lng3 : ℝ) :
    haversineDistance lat1 lng1 lat3 lng3 ≤
      haversineDistance lat1 lng1 lat2 lng2 +
      haversineDistance lat2 lng2 lat3 lng3 := by
  rw [hav_eq_arccos, hav_eq_arccos, hav_eq_arccos]
  have h := arccos_dot3_triangle (sphVec lat1 lng1) (sphVec lat2 lng2)
    (sphVec lat3 lng3) (dot3_sphVec_self lat1 lng1) (dot3_sphVec_self lat2 lng2)
    (dot3_sphVec_self lat3 lng3)
  nlinarith

/-- Specification of the `findClosestNode` fold from a `some`
accumulator holding node `c` at its own distance. -/
lemma closerFold_some (lat lng : ℝ) (l : List Node) : ∀ c : Node,
    ∃ n : Node,
      l.foldl (closerStep lat lng)
          (some (c, haversineDistance lat lng c.lat c.lng)) =
        some (n, haversineDistance lat lng n.lat n.lng) ∧
      (n = c ∨ n ∈ l) ∧
      haversineDistance lat lng n.lat n.lng ≤ haversineDistance lat lng c.lat c.lng ∧
      (∀ m ∈ l,
        haversineDistance lat lng n.lat n.lng ≤ haversineDistance lat lng m.lat m.lng) ∧
      (n = c ∨ ∃ pre post, l = pre ++ n :: post ∧
        haversineDistance lat lng n.lat n.lng < haversineDistance lat lng c.lat c.lng ∧
        ∀ m ∈ pre,
          haversineDistance lat lng n.lat n.lng < haversineDistance lat lng m.lat m.lng) := by
  induction l with
  | nil =>
      intro c
      exact ⟨c, rfl, Or.inl rfl, le_rfl, by simp, Or.inl rfl⟩
  | cons x xs ih =>
      intro c
      by_cases hcmp : haversineDistance lat lng x.lat x.lng <
          haversineDistance lat lng c.lat c.lng
      · have hstep : closerStep lat lng
            (some (c, haversineDistance lat lng c.lat c.lng)) x =
            some (x, haversineDistance lat lng x.lat x.lng) := by
          simp [closerStep, hcmp]
        obtain ⟨n, hfold, hmem, hle, hall, hfirst⟩ := ih x
        refine ⟨n, ?_, ?_, ?_, ?_, ?_⟩
        · rw [List.foldl_cons, hstep]; exact hfold
        · rcases hmem with h | h
          · exact Or.inr (h ▸ List.mem_cons_self x xs)
          · exact Or.inr (List.mem_cons_of_mem x h)
        · exact hle.trans hcmp.le
        · intro m hm
          rcases List.mem_cons.mp hm with h | h
          · exact h ▸ hle
          · exact hall m h
        · right
          rcases hfirst with heq | ⟨pre, post, hsplit, hlt, hpre⟩
          · exact ⟨[], xs, by simp [heq], heq ▸ hcmp, by simp⟩
          · refine ⟨x :: pre, post, by simp [hsplit], hlt.trans hcmp, ?_⟩
            intro m hm
            rcases List.mem_cons.mp hm with h | h
            · exact h ▸ hlt
            · exact hpre m h
      · have hstep : closerStep lat lng
            (some (c, haversineDistance lat lng c.lat c.lng)) x =
            some (c, haversineDistance lat lng c.lat c.lng) := by
          simp [closerStep, hcmp]
        obtain ⟨n, hfold, hmem, hle, hall, hfirst⟩ := ih c
        have hxc : haversineDistance lat lng c.lat c.lng ≤
            haversineDistance lat lng x.lat x.lng := not_lt.mp hcmp
        refine ⟨n, ?_, ?_, hle, ?_, ?_⟩
        · rw [List.foldl_cons, hstep]; exact hfold
        · rcases hmem with h | h
          · exact Or.inl h
          · exact Or.inr (List.mem_cons_of_mem x h)
        · intro m hm
          rcases List.mem_cons.mp hm with h | h
          · exact h ▸ (hle.trans hxc)
          · exact hall m h
        · rcases hfirst with heq | ⟨pre, post, hsplit, hlt, hpre⟩
          · exact Or.inl heq
          · refine Or.inr ⟨x :: pre, post, by simp [hsplit], hlt, ?_⟩
            intro m hm
            rcases List.mem_cons.mp hm with h | h
            · exact h ▸ (hlt.trans_le hxc)
            · exact hpre m h

/-- Claim C4: `findClosestNode` returns `none` exactly on the empty
graph; otherwise it returns a node at minimal haversine distance from
the query position, and among equally close nodes the first one in
insertion (iteration) order. -/
theorem claim_C4 (G : Graph) (lat lng : ℝ) :
    (G.findClosestNode lat lng = none ↔ G.nodes = []) ∧
    ∀ n : Node, G.findClosestNode lat lng = some n →
      n ∈ G.nodes ∧
      (∀ m ∈ G.nodes,
        haversineDistance lat lng n.lat n.lng ≤ haversineDistance lat lng m.lat m.lng) ∧
      ∃ pre post, G.nodes = pre ++ n :: post ∧
        ∀ m ∈ pre,
          haversineDistance lat lng n.lat n.lng < haversineDistance lat lng m.lat m.lng := by
  cases hG : G.nodes with
  | nil =>
      constructor
      · simp [Graph.findClosestNode, hG]
      · intro n hn
        simp [Graph.findClosestNode, hG] at hn
  | cons x xs =>
      obtain ⟨n₀, hfold, hmem, hle, hall, hfirst⟩ := closerFold_some lat lng xs x
      have hres : G.findClosestNode lat lng = some n₀ := by
        unfold Graph.findClosestNode
        rw [hG, List.foldl_cons]
        have hstep : closerStep lat lng none x =
            some (x, haversineDistance lat lng x.lat x.lng) := rfl
        rw [hstep, hfold]
        rfl
      constructor
      · rw [hres]
        simp
      · intro n hn
        rw [hres] at hn
        obtain rfl : n₀ = n := by injection hn
        refine ⟨?_, ?_, ?_⟩
        · rcases hmem with h | h
          · exact h ▸ List.mem_cons_self x xs
          · exact List.mem_cons_of_mem x h
        · intro m hm
          rcases List.mem_cons.mp hm with h | h
          · exact h ▸ hle
          · exact hall m h
        · rcases hfirst with heq | ⟨pre, post, hsplit, hlt, hpre⟩
          · exact ⟨[], xs, by rw [heq]; rfl, by simp⟩
          · refine ⟨x :: pre, post, by rw [hsplit]; rfl, ?_⟩
            intro m hm
            rcases List.mem_cons.mp hm with h | h
            · exact h ▸ hlt
            · exact hpre m h

/-- Witness fixture statement support: see `claim_C4_witness` below. -/
theorem claim_C4_witness :
    nodeA ∈ twoNodeGraph.nodes ∧
    (∀ m ∈ twoNodeGraph.nodes,
      haversineDistance 0 0 nodeA.lat nodeA.lng ≤ haversineDistance 0 0 m.lat m.lng) ∧
    ∃ pre post, twoNodeGraph.nodes = pre ++ nodeA :: post ∧
      ∀ m ∈ pre,
        haversineDistance 0 0 nodeA.lat nodeA.lng < haversineDistance 0 0 m.lat m.lng :=
  (claim_C4 twoNodeGraph 0 0).2 nodeA
    (by simp [Graph.findClosestNode, twoNodeGraph, nodeA, nodeB, closerStep,
      findNode, hav_self])

/-! ### Store lemmas and frame properties -/

lemma findNode_updateNode (σ : List Node) (id j : String) (φ : Node → Node)
    (hφ : ∀ n, (φ n).id = n.id) :
    findNode (updateNode σ id φ) j =
      (findNode σ j).map fun n => if n.id = id then φ n else n := by
  unfold findNode updateNode
  induction σ with
  | nil => rfl
  | cons x xs ih =>
      have hidpres : (if x.id = id then φ x else x).id = x.id := by
        by_cases hy : x.id = id
        · rw [if_pos hy]; exact hφ x
        · rw [if_neg hy]
      simp only [List.map_cons, List.find?_cons]
      cases hbeq : (x.id == j) with
      | true =>
          have h1 : ((if x.id = id then φ x else x).id == j) = true := by
            rw [hidpres]; exact hbeq
          simp [h1]
      | false =>
          have h1 : ((if x.id = id then φ x else x).id == j) = false := by
            rw [hidpres]; exact hbeq
          simp only [h1]
          exact ih

lemma length_updateNode (σ : List Node) (id : String) (φ : Node → Node) :
    (updateNode σ id φ).length = σ.length :=
  List.length_map _ _

lemma structProj_updateNode (σ : List Node) (id : String) (φ : Node → Node)
    (hφ : ∀ n, structProj (φ n) = structProj n) :
    (updateNode σ id φ).map structProj = σ.map structProj := by
  unfold updateNode
  rw [List.map_map]
  apply List.map_congr_left
  intro n _
  by_cases h : n.id = id <;> simp [h, hφ]

lemma relaxNbr_structProj (goal curN : Node) (closedSet : List String)
    (st : List Node × List String) (nbrId : String) :
    ((relaxNbr goal curN closedSet st nbrId).1).map structProj =
      st.1.map structProj := by
  unfold relaxNbr
  by_cases h1 : nbrId ∈ closedSet
  · simp [h1]
  · simp only [h1, if_false]
    cases hfind : findNode st.1 nbrId with
    | none => rfl
    | some nbr =>
        by_cases h2 : nbrId ∈ st.2 ∧ curN.g + curN.distanceTo nbr ≥ nbr.g
        · simp [h2]
        · simp only [h2, if_false]
          exact structProj_updateNode _ _ _ fun n => rfl

lemma expandFold_structProj (goal curN : Node) (closedSet : List String)
    (l : List String) : ∀ st : List Node × List String,
    ((l.foldl (relaxNbr goal curN closedSet) st).1).map structProj =
      st.1.map structProj := by
  induction l with
  | nil => intro st; rfl
  | cons x xs ih =>
      intro st
      rw [List.foldl_cons, ih]
      exact relaxNbr_structProj goal curN closedSet st x

lemma aStarLoop_structProj (goal : Node) :
    ∀ (fuel : ℕ) (σ : List Node) (openSet closedSet : List String),
    ((aStarLoop goal fuel σ openSet closedSet).2).map structProj =
      σ.map structProj := by
  intro fuel
  induction fuel with
  | zero => intro σ openSet closedSet; rfl
  | succ n ih =>
      intro σ openSet closedSet
      cases openSet with
      | nil => rfl
      | cons o os =>
          simp only [aStarLoop]
          cases hfind : findNode σ (pickMin σ o os) with
          | none => rfl
          | some curN =>
              by_cases hgoal : pickMin σ o os = goal.id
              · simp [hgoal]
              · simp only [hgoal, if_false]
                rw [ih]
                exact expandFold_structProj goal curN _ _ _

/-- Claim C10: running `aStar` never changes the graph structure: the
store keeps the same nodes in the same order with identical `id`,
`lat`, `lng` and `neighbors`; only the scratch fields `g`, `h`, `f`,
`parent` may differ. -/
theorem claim_C10 (σ : List Node) (start goal : Option Node) :
    ((aStar σ start goal).2).map structProj = σ.map structProj := by
  cases start with
  | none => cases goal <;> rfl
  | some s =>
      cases goal with
      | none => rfl
      | some goalN =>
          show ((aStarLoop goalN (σ.length + 1) _ [s.id] []).2).map structProj =
            σ.map structProj
          rw [aStarLoop_structProj]
          exact structProj_updateNode σ s.id _ fun n => rfl

/-- Claim C9: when the start or the goal argument is absent (`null`),
`aStar` returns `none` immediately and the store is untouched. -/
theorem claim_C9 (σ : List Node) (start goal : Option Node)
    (h : start = none ∨ goal = none) : aStar σ start goal = (none, σ) := by
  rcases h with h | h
  · subst h; cases goal <;> rfl
  · subst h; cases start <;> rfl

theorem claim_C9_witness : aStar [] none none = (none, []) :=
  claim_C9 [] none none (Or.inl rfl)

/-- Claim C6: `aStar(s, s)` on a node with a fresh `parent` returns the
one-point path at that node's position. -/
theorem claim_C6 (σ : List Node) (s : Node) (hfind : findNode σ s.id = some s)
    (hparent : s.parent = none) :
    (aStar σ (some s) (some s)).1 = some [⟨s.lat, s.lng⟩] := by
  unfold aStar
  have hfind0 : findNode
      (updateNode σ s.id fun n =>
        { n with g := 0, h := s.distanceTo s, f := s.distanceTo s }) s.id =
      some { s with g := 0, h := s.distanceTo s, f := s.distanceTo s } := by
    rw [findNode_updateNode σ s.id s.id
      (fun n => { n with g := 0, h := s.distanceTo s, f := s.distanceTo s })
      (fun n => rfl), hfind]
    simp
  simp only [aStarLoop, pickMin, hfind0, if_pos rfl]
  simp [reconstructPath, hparent]

theorem claim_C6_witness :
    (aStar [nodeA] (some nodeA) (some nodeA)).1 = some [⟨nodeA.lat, nodeA.lng⟩] :=
  claim_C6 [nodeA] nodeA (by rfl) (by rfl)

/-- Claim C3: both route operations return tagged results (and, being
total functions of their inputs, propagate no exception); the
`"Could not find route nodes"` failure happens exactly when the
nearest-node mapping of the origin or the destination returns none,
the `"No path found"` failure exactly when both mappings succeed and
the A* search returns none, and these are the only failures. -/
theorem claim_C3 (origin destination : Coord) (graph : Option Graph) :
    (calculateRoute origin destination graph = .err "Could not find route nodes" ↔
      (usedGraph origin destination graph).findClosestNode origin.lat origin.lng = none ∨
      (usedGraph origin destination graph).findClosestNode destination.lat destination.lng
        = none) ∧
    (calculateRoute origin destination graph = .err "No path found" ↔
      ∃ s t,
        (usedGraph origin destination graph).findClosestNode origin.lat origin.lng
          = some s ∧
        (usedGraph origin destination graph).findClosestNode destination.lat destination.lng
          = some t ∧
        (aStar (usedGraph origin destination graph).nodes (some s) (some t)).1 = none) ∧
    ((calculateRoute origin destination graph).success = false ↔
      calculateRoute origin destination graph = .err "Could not find route nodes" ∨
      calculateRoute origin destination graph = .err "No path found") ∧
    (createDirectPath origin destination).success = true := by
  cases hs : (usedGraph origin destination graph).findClosestNode origin.lat origin.lng with
  | none =>
      refine ⟨?_, ?_, ?_, rfl⟩
      · simp [calculateRoute, hs]
      · simp [calculateRoute, hs]
      · simp [calculateRoute, hs, RouteResult.success]
  | some s =>
      cases ht : (usedGraph origin destination graph).findClosestNode destination.lat
          destination.lng with
      | none =>
          refine ⟨?_, ?_, ?_, rfl⟩
          · simp [calculateRoute, hs, ht]
          · simp [calculateRoute, hs, ht]
          · simp [calculateRoute, hs, ht, RouteResult.success]
      | some t =>
          cases hp : (aStar (usedGraph origin destination graph).nodes
              (some s) (some t)).1 with
          | none =>
              refine ⟨?_, ?_, ?_, rfl⟩
              · simp [calculateRoute, hs, ht, hp]
              · simp [calculateRoute, hs, ht, hp]
              · simp [calculateRoute, hs, ht, hp, RouteResult.success]
          | some path =>
              refine ⟨?_, ?_, ?_, rfl⟩
              · simp [calculateRoute, hs, ht, hp]
              · simp [calculateRoute, hs, ht, hp]
              · simp [calculateRoute, hs, ht, hp, RouteResult.success]

/-- Claim C7: every successful result of the route operations has
`duration = round(distance / 50 × 60)`, a meters distance text exactly
when the distance is below 1 km and a two-decimal kilometers text from
1 km upward (so exactly 1.0 km formats as kilometers), and a minutes
duration text exactly below 60 minutes, hours+minutes from 60 upward. -/
theorem claim_C7 (origin destination : Coord) (graph : Option Graph) :
    (∀ path dist dtext dur dutext,
      calculateRoute origin destination graph =
          .ok path dist dtext dur dutext →
        dur = jsRound (dist / AVERAGE_SPEED_KMH * 60) ∧
        dtext = (if dist < 1 then DistanceText.meters (jsRound (dist * 1000))
          else DistanceText.kilometers dist) ∧
        (1 ≤ dist → dtext = DistanceText.kilometers dist) ∧
        dutext = (if dur < 60 then DurationText.minutes dur
          else DurationText.hoursMinutes ⌊(dur : ℝ) / 60⌋ (Int.tmod dur 60))) ∧
    (∀ path dist dtext dur dutext,
      createDirectPath origin destination = .ok path dist dtext dur dutext →
        dur = jsRound (dist / AVERAGE_SPEED_KMH * 60) ∧
        dtext = (if dist < 1 then DistanceText.meters (jsRound (dist * 1000))
          else DistanceText.kilometers dist) ∧
        (1 ≤ dist → dtext = DistanceText.kilometers dist) ∧
        dutext = (if dur < 60 then DurationText.minutes dur
          else DurationText.hoursMinutes ⌊(dur : ℝ) / 60⌋ (Int.tmod dur 60))) := by
  have hfmt : ∀ d : ℝ,
      (distanceTextOf d = (if d < 1 then DistanceText.meters (jsRound (d * 1000))
        else DistanceText.kilometers d)) ∧
      (1 ≤ d → distanceTextOf d = DistanceText.kilometers d) := by
    intro d
    refine ⟨rfl, fun h1 => ?_⟩
    unfold distanceTextOf
    rw [if_neg (not_lt.mpr h1)]
  constructor
  · intro path dist dtext dur dutext hres
    cases hs : (usedGraph origin destination graph).findClosestNode origin.lat
        origin.lng with
    | none => simp [calculateRoute, hs] at hres
    | some s =>
        cases ht : (usedGraph origin destination graph).findClosestNode
            destination.lat destination.lng with
        | none => simp [calculateRoute, hs, ht] at hres
        | some t =>
            cases hp : (aStar (usedGraph origin destination graph).nodes
                (some s) (some t)).1 with
            | none => simp [calculateRoute, hs, ht, hp] at hres
            | some p =>
                simp only [calculateRoute, hs, ht, hp, RouteResult.ok.injEq] at hres
                obtain ⟨h1, h2, h3, h4, h5⟩ := hres
                subst h2
                exact ⟨h4.symm.trans (by rfl), h3.symm.trans (hfmt _).1,
                  fun hd => h3.symm.trans ((hfmt _).2 hd),
                  h5.symm.trans (by rw [h4]; rfl)⟩
  · intro path dist dtext dur dutext hres
    simp only [createDirectPath, RouteResult.ok.injEq] at hres
    obtain ⟨h1, h2, h3, h4, h5⟩ := hres
    subst h2
    exact ⟨h4.symm.trans (by rfl), h3.symm.trans (hfmt _).1,
      fun hd => h3.symm.trans ((hfmt _).2 hd),
      h5.symm.trans (by rw [h4]; rfl)⟩

theorem claim_C7_witness :
    distanceTextOf (haversineDistance 0 0 0 0) =
      (if haversineDistance 0 0 0 0 < 1 then
        DistanceText.meters (jsRound (haversineDistance 0 0 0 0 * 1000))
       else DistanceText.kilometers (haversineDistance 0 0 0 0)) :=
  ((claim_C7 ⟨0, 0⟩ ⟨0, 0⟩ none).2 [⟨0, 0⟩, ⟨0, 0⟩] (haversineDistance 0 0 0 0)
    (distanceTextOf (haversineDistance 0 0 0 0))
    (jsRound (haversineDistance 0 0 0 0 / AVERAGE_SPEED_KMH * 60))
    (durationTextOf (jsRound (haversineDistance 0 0 0 0 / AVERAGE_SPEED_KMH * 60)))
    rfl).2.1

/-! ### Grid node ids are injective -/

lemma digitChar_ne_comma {n : ℕ} (h : n < 10) : Nat.digitChar n ≠ ',' := by
  interval_cases n <;> decide

lemma digitChar_injOn : ∀ m < 10, ∀ n < 10,
    Nat.digitChar m = Nat.digitChar n → m = n := by decide

lemma natStrCore_ne_comma : ∀ fuel n, n < fuel → ∀ c ∈ natStrCore fuel n, c ≠ ',' := by
  intro fuel
  induction fuel with
  | zero => intro n h; exact absurd h (Nat.not_lt_zero n)
  | succ f ih =>
      intro n h c hc
      simp only [natStrCore] at hc
      by_cases h10 : n < 10
      · rw [if_pos h10] at hc
        simp only [List.mem_singleton] at hc
        exact hc ▸ digitChar_ne_comma h10
      · rw [if_neg h10] at hc
        rcases List.mem_append.mp hc with h1 | h2
        · have hdiv : n / 10 < n := Nat.div_lt_self (by omega) (by omega)
          exact ih (n / 10) (by omega) c h1
        · simp only [List.mem_singleton] at h2
          exact h2 ▸ digitChar_ne_comma (Nat.mod_lt _ (by omega))

lemma natStrCore_ne_nil : ∀ fuel n, n < fuel → natStrCore fuel n ≠ [] := by
  intro fuel n h
  cases fuel with
  | zero => exact absurd h (Nat.not_lt_zero n)
  | succ f =>
      simp only [natStrCore]
      by_cases h10 : n < 10
      · rw [if_pos h10]; simp
      · rw [if_neg h10]; simp

lemma natStrCore_inj : ∀ fuel1 fuel2 m n, m < fuel1 → n < fuel2 →
    natStrCore fuel1 m = natStrCore fuel2 n → m = n := by
  intro fuel1
  induction fuel1 with
  | zero => intro fuel2 m n h1; exact absurd h1 (Nat.not_lt_zero m)
  | succ f ih =>
      intro fuel2 m n h1 h2 heq
      cases fuel2 with
      | zero => exact absurd h2 (Nat.not_lt_zero n)
      | succ g =>
          simp only [natStrCore] at heq
          by_cases hm : m < 10 <;> by_cases hn : n < 10
          · rw [if_pos hm, if_pos hn] at heq
            simp only [List.cons.injEq, and_true] at heq
            exact digitChar_injOn m hm n hn heq
          · rw [if_pos hm, if_neg hn] at heq
            have hlen := congrArg List.length heq
            have hdiv : n / 10 < n := Nat.div_lt_self (by omega) (by omega)
            have hnil := natStrCore_ne_nil g (n / 10) (by omega)
            simp only [List.length_singleton, List.length_append] at hlen
            have : (natStrCore g (n / 10)).length = 0 := by omega
            exact absurd (List.eq_nil_of_length_eq_zero this) hnil
          · rw [if_neg hm, if_pos hn] at heq
            have hlen := congrArg List.length heq
            have hdiv : m / 10 < m := Nat.div_lt_self (by omega) (by omega)
            have hnil := natStrCore_ne_nil f (m / 10) (by omega)
            simp only [List.length_singleton, List.length_append] at hlen
            have : (natStrCore f (m / 10)).length = 0 := by omega
            exact absurd (List.eq_nil_of_length_eq_zero this) hnil
          · rw [if_neg hm, if_neg hn] at heq
            have hrev := congrArg List.reverse heq
            simp only [List.reverse_append, List.reverse_singleton,
              List.singleton_append, List.cons.injEq] at hrev
            obtain ⟨hd, htl⟩ := hrev
            have hmod : m % 10 = n % 10 :=
              digitChar_injOn _ (Nat.mod_lt _ (by omega)) _ (Nat.mod_lt _ (by omega)) hd
            have hdm : m / 10 < m := Nat.div_lt_self (by omega) (by omega)
            have hdn : n / 10 < n := Nat.div_lt_self (by omega) (by omega)
            have hdivs : natStrCore f (m / 10) = natStrCore g (n / 10) := by
              have := congrArg List.reverse htl
              simpa using this
            have hdiv : m / 10 = n / 10 := ih g (m / 10) (n / 10) (by omega) (by omega) hdivs
            omega

lemma natStr_inj {m n : ℕ} (h : natStr m = natStr n) : m = n := by
  have hdata : natStrCore (m + 1) m = natStrCore (n + 1) n := congrArg String.data h
  exact natStrCore_inj (m + 1) (n + 1) m n (Nat.lt_succ_self m) (Nat.lt_succ_self n) hdata

lemma natStr_ne_comma (n : ℕ) : ∀ c ∈ (natStr n).data, c ≠ ',' :=
  natStrCore_ne_comma (n + 1) n (Nat.lt_succ_self n)

lemma append_comma_inj : ∀ (s1 t1 s2 t2 : List Char),
    (∀ c ∈ s1, c ≠ ',') → (∀ c ∈ t1, c ≠ ',') →
    s1 ++ ',' :: s2 = t1 ++ ',' :: t2 → s1 = t1 ∧ s2 = t2 := by
  intro s1
  induction s1 with
  | nil =>
      intro t1 s2 t2 _ h2 heq
      cases t1 with
      | nil => simpa using heq
      | cons d t1 =>
          exfalso
          simp only [List.nil_append, List.cons_append, List.cons.injEq] at heq
          exact h2 d (List.mem_cons_self d t1) heq.1.symm
  | cons c s1 ih =>
      intro t1 s2 t2 h1 h2 heq
      cases t1 with
      | nil =>
          exfalso
          simp only [List.nil_append, List.cons_append, List.cons.injEq] at heq
          exact h1 c (List.mem_cons_self c s1) heq.1
      | cons d t1 =>
          simp only [List.cons_append, List.cons.injEq] at heq
          obtain ⟨hcd, hrest⟩ := heq
          obtain ⟨hA, hB⟩ := ih t1 s2 t2 (fun x hx => h1 x (List.mem_cons_of_mem c hx))
            (fun x hx => h2 x (List.mem_cons_of_mem d hx)) hrest
          exact ⟨by rw [hcd, hA], hB⟩

lemma gridId_data (i j : ℕ) :
    (gridId i j).data = (natStr i).data ++ ',' :: (natStr j).data := by
  have hcomma : ("," : String).data = [','] := by decide
  show (natStr i ++ "," ++ natStr j).data = _
  rw [String.data_append, String.data_append, List.append_assoc, hcomma]
  rfl

lemma gridId_inj {i j a b : ℕ} : gridId i j = gridId a b ↔ i = a ∧ j = b := by
  constructor
  · intro h
    have hdata := congrArg String.data h
    rw [gridId_data, gridId_data] at hdata
    obtain ⟨h1, h2⟩ := append_comma_inj _ _ _ _ (natStr_ne_comma i) (natStr_ne_comma a) hdata
    have hs1 : natStr i = natStr a := congrArg String.mk h1
    have hs2 : natStr j = natStr b := congrArg String.mk h2
    exact ⟨natStr_inj hs1, natStr_inj hs2⟩
  · rintro ⟨rfl, rfl⟩; rfl

lemma gridNodeStep_eq (center : Coord) (radiusKm : ℝ) (gridSize : ℤ) (g : Graph)
    (c : ℕ × ℕ) :
    gridNodeStep center radiusKm gridSize g c =
      ⟨setNode g.nodes (gridNode center radiusKm gridSize c)⟩ := rfl

lemma setNode_append (l : List Node) (node : Node) (h : ∀ m ∈ l, m.id ≠ node.id) :
    setNode l node = l ++ [node] := by
  induction l with
  | nil => rfl
  | cons x xs ih =>
      simp only [setNode]
      rw [if_neg (h x (List.mem_cons_self x xs)),
        ih fun m hm => h m (List.mem_cons_of_mem x hm)]
      rfl

lemma gridNodesFold (center : Coord) (radiusKm : ℝ) (gridSize : ℤ) :
    ∀ (cells : List (ℕ × ℕ)) (G : Graph),
    (∀ c ∈ cells, ∀ m ∈ G.nodes, m.id ≠ gridId c.1 c.2) →
    cells.Pairwise (fun a b => gridId a.1 a.2 ≠ gridId b.1 b.2) →
    (cells.foldl (gridNodeStep center radiusKm gridSize) G).nodes =
      G.nodes ++ cells.map (gridNode center radiusKm gridSize) := by
  intro cells
  induction cells with
  | nil => intro G _ _; simp
  | cons c rest ih =>
      intro G hfresh hpair
      rw [List.foldl_cons, gridNodeStep_eq]
      have hstep : setNode G.nodes (gridNode center radiusKm gridSize c) =
          G.nodes ++ [gridNode center radiusKm gridSize c] :=
        setNode_append _ _ fun m hm => hfresh c (List.mem_cons_self c rest) m hm
      rw [hstep]
      obtain ⟨hhead, htail⟩ := List.pairwise_cons.mp hpair
      rw [ih ⟨G.nodes ++ [gridNode center radiusKm gridSize c]⟩ ?_ htail]
      · simp
      · intro c2 hc2 m hm
        rcases List.mem_append.mp hm with h1 | h2
        · exact hfresh c2 (List.mem_cons_of_mem c hc2) m h1
        · simp only [List.mem_singleton] at h2
          subst h2
          exact hhead c2 hc2

lemma gridCells_eq (N : ℕ) : gridCells N = (List.range N) ×ˢ (List.range N) := rfl

lemma gridCells_nodup (N : ℕ) : (gridCells N).Nodup := by
  rw [gridCells_eq]
  exact (List.nodup_range N).product (List.nodup_range N)

lemma gridCells_mem {N i j : ℕ} : (i, j) ∈ gridCells N ↔ i < N ∧ j < N := by
  rw [gridCells_eq]
  simp

lemma gridCells_length (N : ℕ) : (gridCells N).length = N * N := by
  rw [gridCells_eq, List.length_product, List.length_range]

lemma gridCells_pairwise_ids (N : ℕ) :
    (gridCells N).Pairwise (fun a b => gridId a.1 a.2 ≠ gridId b.1 b.2) := by
  refine (gridCells_nodup N).imp ?_
  intro a b hne hid
  obtain ⟨h1, h2⟩ := gridId_inj.mp hid
  exact hne (Prod.ext h1 h2)

/-- After the node-creation loop from the fresh graph, the node list is
exactly the cells' nodes in row-major order. -/
lemma phase1_nodes (center : Coord) (radiusKm : ℝ) (gridSize : ℤ) :
    ((gridCells gridSize.toNat).foldl (gridNodeStep center radiusKm gridSize)
        (Graph.mk [])).nodes =
      (gridCells gridSize.toNat).map (gridNode center radiusKm gridSize) := by
  rw [gridNodesFold center radiusKm gridSize (gridCells gridSize.toNat) (Graph.mk [])
    (by intro c _ m hm; simp at hm) (gridCells_pairwise_ids _)]
  rfl

lemma findNode_gridNodes (center : Coord) (radiusKm : ℝ) (gridSize : ℤ) :
    ∀ (cells : List (ℕ × ℕ)) (i j : ℕ), (i, j) ∈ cells →
    findNode (cells.map (gridNode center radiusKm gridSize)) (gridId i j) =
      some (gridNode center radiusKm gridSize (i, j)) := by
  intro cells
  induction cells with
  | nil => intro i j h; simp at h
  | cons c rest ih =>
      intro i j hmem
      simp only [List.map_cons, findNode, List.find?_cons]
      by_cases hc : c = (i, j)
      · subst hc
        have : ((gridNode center radiusKm gridSize (i, j)).id == gridId i j) = true := by
          simp [gridNode, Node.make]
        rw [this]
      · have hne : gridId c.1 c.2 ≠ gridId i j := by
          intro h
          obtain ⟨h1, h2⟩ := gridId_inj.mp h
          exact hc (Prod.ext h1 h2)
        have : ((gridNode center radiusKm gridSize c).id == gridId i j) = false := by
          simp [gridNode, Node.make]
          exact hne
        rw [this]
        have hmem2 : (i, j) ∈ rest := by
          rcases List.mem_cons.mp hmem with h | h
          · exact absurd h.symm hc
          · exact h
        exact ih i j hmem2

lemma findNode_eq_id (σ : List Node) (j : String) (n : Node)
    (h : findNode σ j = some n) : n.id = j := by
  have := List.find?_some h
  simpa using this

lemma findNode_updateNode_eq (σ : List Node) (id : String) (φ : Node → Node)
    (hφ : ∀ n, (φ n).id = n.id) (j : String) :
    findNode (updateNode σ id φ) j =
      if j = id then (findNode σ j).map φ else findNode σ j := by
  rw [findNode_updateNode σ id j φ hφ]
  by_cases hj : j = id
  · subst hj
    rw [if_pos rfl]
    cases h : findNode σ j with
    | none => rfl
    | some n => simp [findNode_eq_id σ j n h]
  · rw [if_neg hj]
    cases h : findNode σ j with
    | none => rfl
    | some n => simp [findNode_eq_id σ j n h, hj]

lemma addEdge_getNode (G : Graph) (a b : String)
    (ha : (G.getNode a).isSome) (hb : (G.getNode b).isSome) (id : String) :
    (G.addEdge a b).getNode id = (G.getNode id).map
      fun nd => { nd with neighbors := nd.neighbors ++ edgeContrib (a, b) id } := by
  obtain ⟨na, hna⟩ := Option.isSome_iff_exists.mp ha
  obtain ⟨nb, hnb⟩ := Option.isSome_iff_exists.mp hb
  unfold Graph.addEdge
  rw [hna, hnb]
  show Graph.getNode ⟨updateNode
      (updateNode G.nodes a fun n => { n with neighbors := n.neighbors ++ [b] })
      b fun n => { n with neighbors := n.neighbors ++ [a] }⟩ id =
    (G.getNode id).map _
  unfold Graph.getNode
  rw [findNode_updateNode_eq _ b
      (fun n => { n with neighbors := n.neighbors ++ [a] }) (fun n => rfl) id,
    findNode_updateNode_eq _ a
      (fun n => { n with neighbors := n.neighbors ++ [b] }) (fun n => rfl) id]
  by_cases hb2 : id = b
  · subst hb2
    by_cases ha2 : id = a
    · subst ha2
      cases hopt : findNode G.nodes id <;> simp [edgeContrib, hopt]
    · cases hopt : findNode G.nodes id <;>
        simp [edgeContrib, hopt, ha2, Ne.symm ha2]
  · by_cases ha2 : id = a
    · subst ha2
      cases hopt : findNode G.nodes id <;>
        simp [edgeContrib, hopt, hb2, Ne.symm hb2]
    · cases hopt : findNode G.nodes id <;>
        simp [edgeContrib, hopt, hb2, ha2, Ne.symm hb2, Ne.symm ha2]

lemma addEdge_getNode_isSome (G : Graph) (a b id : String) :
    ((G.addEdge a b).getNode id).isSome = ((G.getNode id).isSome) := by
  unfold Graph.addEdge
  cases hna : G.getNode a with
  | none => rfl
  | some na =>
      cases hnb : G.getNode b with
      | none => rfl
      | some nb =>
          show (Graph.getNode ⟨updateNode (updateNode G.nodes a _) b _⟩ id).isSome = _
          unfold Graph.getNode
          rw [findNode_updateNode_eq _ b
              (fun n => { n with neighbors := n.neighbors ++ [a] }) (fun n => rfl) id,
            findNode_updateNode_eq _ a
              (fun n => { n with neighbors := n.neighbors ++ [b] }) (fun n => rfl) id]
          by_cases hb2 : id = b
          · subst hb2
            by_cases ha2 : id = a
            · subst ha2
              cases hopt : findNode G.nodes id <;> simp [hopt]
            · cases hopt : findNode G.nodes id <;> simp [hopt, ha2]
          · by_cases ha2 : id = a
            · subst ha2
              cases hopt : findNode G.nodes id <;> simp [hopt, hb2]
            · cases hopt : findNode G.nodes id <;> simp [hopt, hb2, ha2]

lemma addEdge_nodesLength (G : Graph) (a b : String) :
    (G.addEdge a b).nodes.length = G.nodes.length := by
  unfold Graph.addEdge
  cases G.getNode a <;> cases G.getNode b <;>
    simp [updateNode]

lemma addEdges_getNode : ∀ (es : List (String × String)) (G : Graph),
    (∀ e ∈ es, (G.getNode e.1).isSome ∧ (G.getNode e.2).isSome) → ∀ id,
    (addEdges G es).getNode id = (G.getNode id).map
      fun nd => { nd with neighbors := nd.neighbors ++ es.flatMap (edgeContrib · id) } := by
  intro es
  induction es with
  | nil =>
      intro G _ id
      show G.getNode id = _
      cases hopt : G.getNode id <;> simp
  | cons e rest ih =>
      intro G h id
      obtain ⟨h1, h2⟩ := h e (List.mem_cons_self e rest)
      show (addEdges (G.addEdge e.1 e.2) rest).getNode id = _
      rw [ih (G.addEdge e.1 e.2) ?_ id]
      · rw [addEdge_getNode G e.1 e.2 h1 h2 id]
        cases hopt : G.getNode id <;> simp
      · intro e2 he2
        constructor
        · rw [addEdge_getNode_isSome]
          exact (h e2 (List.mem_cons_of_mem e he2)).1
        · rw [addEdge_getNode_isSome]
          exact (h e2 (List.mem_cons_of_mem e he2)).2

lemma addEdges_nodesLength : ∀ (es : List (String × String)) (G : Graph),
    (addEdges G es).nodes.length = G.nodes.length := by
  intro es
  induction es with
  | nil => intro G; rfl
  | cons e rest ih =>
      intro G
      show (addEdges (G.addEdge e.1 e.2) rest).nodes.length = _
      rw [ih, addEdge_nodesLength]

lemma addEdges_append (G : Graph) (l1 l2 : List (String × String)) :
    addEdges G (l1 ++ l2) = addEdges (addEdges G l1) l2 := by
  unfold addEdges
  rw [List.foldl_append]

lemma gridEdgeStep_eq_addEdges (N : ℕ) (G : Graph) (c : ℕ × ℕ) :
    gridEdgeStep N G c = addEdges G (cellEdges N c) := by
  unfold gridEdgeStep cellEdges
  by_cases h1 : c.2 + 1 < N <;> by_cases h2 : c.1 + 1 < N <;> by_cases h3 : 0 < c.2 <;>
    simp [h1, h2, h3, addEdges, List.foldl_append]

lemma gridEdgesFold (N : ℕ) : ∀ (cells : List (ℕ × ℕ)) (G : Graph),
    cells.foldl (gridEdgeStep N) G = addEdges G (cells.flatMap (cellEdges N)) := by
  intro cells
  induction cells with
  | nil => intro G; rfl
  | cons c rest ih =>
      intro G
      rw [List.foldl_cons, ih, gridEdgeStep_eq_addEdges, List.flatMap_cons,
        addEdges_append]

/-! ### Counting the neighbor-list entries of each grid node -/

lemma edgeIf_len (P : Prop) [Decidable P] (x y gid : String) :
    (((if P then [(x, y)] else []) : List (String × String)).flatMap
        (fun e => edgeContrib e gid)).length =
      (if P ∧ x = gid then 1 else 0) + (if P ∧ y = gid then 1 else 0) := by
  by_cases hP : P
  · simp only [if_pos hP, hP, true_and, List.flatMap_cons, List.flatMap_nil,
      List.append_nil]
    unfold edgeContrib
    by_cases h1 : x = gid <;> by_cases h2 : y = gid <;> simp [h1, h2]
  · simp [hP]

lemma ite_pair {p c : ℕ × ℕ} {Q U : Prop} [Decidable Q] [Decidable U]
    (h : Q ↔ p = c ∧ U) :
    (if Q then 1 else 0 : ℕ) = if p = c then (if U then 1 else 0) else 0 := by
  by_cases hq : Q
  · obtain ⟨hp, hu⟩ := h.mp hq
    rw [if_pos hq, if_pos hp, if_pos hu]
  · rw [if_neg hq]
    by_cases hp : p = c
    · rw [if_pos hp]
      by_cases hu : U
      · exact absurd (h.mpr ⟨hp, hu⟩) hq
      · rw [if_neg hu]
    · rw [if_neg hp]

/-- The neighbor entries grid cell `(a, b)` contributes to node
`(i, j)`, written as indicators of the contributing cell. -/
lemma F_pointwise (N i j a b : ℕ) :
    ((cellEdges N (a, b)).flatMap (fun e => edgeContrib e (gridId i j))).length =
      (if (a, b) = (i, j) then (if j + 1 < N then 1 else 0) else 0) +
      (if (a, b) = (i, j - 1) then (if 0 < j ∧ j < N then 1 else 0) else 0) +
      ((if (a, b) = (i, j) then (if i + 1 < N then 1 else 0) else 0) +
      (if (a, b) = (i - 1, j) then (if 0 < i ∧ i < N then 1 else 0) else 0)) +
      ((if (a, b) = (i, j) then (if i + 1 < N ∧ j + 1 < N then 1 else 0) else 0) +
      (if (a, b) = (i - 1, j - 1) then
        (if 0 < i ∧ 0 < j ∧ i < N ∧ j < N then 1 else 0) else 0)) +
      ((if (a, b) = (i, j) then (if i + 1 < N ∧ 0 < j then 1 else 0) else 0) +
      (if (a, b) = (i - 1, j + 1) then (if 0 < i ∧ i < N then 1 else 0) else 0)) := by
  simp only [cellEdges, List.flatMap_append, List.length_append, edgeIf_len, gridId_inj]
  rw [ite_pair (show (b + 1 < N ∧ (a = i ∧ b = j)) ↔ ((a, b) = (i, j) ∧ j + 1 < N) by
      simp only [Prod.mk.injEq]; omega),
    ite_pair (show (b + 1 < N ∧ (a = i ∧ b + 1 = j)) ↔
        ((a, b) = (i, j - 1) ∧ (0 < j ∧ j < N)) by
      simp only [Prod.mk.injEq]; omega),
    ite_pair (show (a + 1 < N ∧ (a = i ∧ b = j)) ↔ ((a, b) = (i, j) ∧ i + 1 < N) by
      simp only [Prod.mk.injEq]; omega),
    ite_pair (show (a + 1 < N ∧ (a + 1 = i ∧ b = j)) ↔
        ((a, b) = (i - 1, j) ∧ (0 < i ∧ i < N)) by
      simp only [Prod.mk.injEq]; omega),
    ite_pair (show ((a + 1 < N ∧ b + 1 < N) ∧ (a = i ∧ b = j)) ↔
        ((a, b) = (i, j) ∧ (i + 1 < N ∧ j + 1 < N)) by
      simp only [Prod.mk.injEq]; omega),
    ite_pair (show ((a + 1 < N ∧ b + 1 < N) ∧ (a + 1 = i ∧ b + 1 = j)) ↔
        ((a, b) = (i - 1, j - 1) ∧ (0 < i ∧ 0 < j ∧ i < N ∧ j < N)) by
      simp only [Prod.mk.injEq]; omega),
    ite_pair (show ((a + 1 < N ∧ 0 < b) ∧ (a = i ∧ b = j)) ↔
        ((a, b) = (i, j) ∧ (i + 1 < N ∧ 0 < j)) by
      simp only [Prod.mk.injEq]; omega),
    ite_pair (show ((a + 1 < N ∧ 0 < b) ∧ (a + 1 = i ∧ b - 1 = j)) ↔
        ((a, b) = (i - 1, j + 1) ∧ (0 < i ∧ i < N)) by
      simp only [Prod.mk.injEq]; omega)]

lemma gridCells_toFinset (N : ℕ) :
    (gridCells N).toFinset = Finset.range N ×ˢ Finset.range N := by
  ext p
  obtain ⟨a, b⟩ := p
  simp [gridCells_mem]

set_option maxHeartbeats 2000000 in
/-- The number of neighbor-list entries node `(i, j)` accumulates over
the whole edge loop, classified as interior / corner / boundary. -/
lemma degree_sum (N i j : ℕ) (hN : 2 ≤ N) (hi : i < N) (hj : j < N) :
    (((gridCells N).flatMap (cellEdges N)).flatMap
        (fun e => edgeContrib e (gridId i j))).length =
      if 0 < i ∧ i + 1 < N ∧ 0 < j ∧ j + 1 < N then 8
      else if (i = 0 ∨ i + 1 = N) ∧ (j = 0 ∨ j + 1 = N) then 3
      else 5 := by
  rw [List.flatMap_assoc, List.length_flatMap]
  have h1 : (List.map (List.length ∘ fun c => (cellEdges N c).flatMap
      fun e => edgeContrib e (gridId i j)) (gridCells N)).sum =
      ∑ p ∈ Finset.range N ×ˢ Finset.range N,
        ((cellEdges N p).flatMap fun e => edgeContrib e (gridId i j)).length := by
    rw [← gridCells_toFinset, List.sum_toFinset _ (gridCells_nodup N)]
    rfl
  rw [h1]
  have h2 : ∀ p ∈ Finset.range N ×ˢ Finset.range N,
      ((cellEdges N p).flatMap fun e => edgeContrib e (gridId i j)).length =
      (if p = (i, j) then (if j + 1 < N then 1 else 0) else 0) +
      (if p = (i, j - 1) then (if 0 < j ∧ j < N then 1 else 0) else 0) +
      ((if p = (i, j) then (if i + 1 < N then 1 else 0) else 0) +
      (if p = (i - 1, j) then (if 0 < i ∧ i < N then 1 else 0) else 0)) +
      ((if p = (i, j) then (if i + 1 < N ∧ j + 1 < N then 1 else 0) else 0) +
      (if p = (i - 1, j - 1) then
        (if 0 < i ∧ 0 < j ∧ i < N ∧ j < N then 1 else 0) else 0)) +
      ((if p = (i, j) then (if i + 1 < N ∧ 0 < j then 1 else 0) else 0) +
      (if p = (i - 1, j + 1) then (if 0 < i ∧ i < N then 1 else 0) else 0)) := by
    intro p _
    obtain ⟨a, b⟩ := p
    exact F_pointwise N i j a b
  rw [Finset.sum_congr rfl h2]
  simp only [Finset.sum_add_distrib, Finset.sum_ite_eq']
  have hj1 : j - 1 < N := by omega
  have hi1 : i - 1 < N := by omega
  simp only [Finset.mem_product, Finset.mem_range, hi, hj, hj1, hi1, and_true, true_and,
    if_true]
  split_ifs <;> omega

lemma mem_ite_singleton {α : Type} {P : Prop} [Decidable P] {x a : α} :
    a ∈ (if P then [x] else []) ↔ P ∧ a = x := by
  split_ifs with h <;> simp [h]

lemma cellEdges_endpoints (N : ℕ) (c : ℕ × ℕ) (hc : c ∈ gridCells N) :
    ∀ e ∈ cellEdges N c,
      (∃ u v, u < N ∧ v < N ∧ e.1 = gridId u v) ∧
      (∃ u v, u < N ∧ v < N ∧ e.2 = gridId u v) := by
  obtain ⟨a, b⟩ := c
  obtain ⟨ha, hb⟩ := gridCells_mem.mp hc
  intro e he
  simp only [cellEdges, List.mem_append, mem_ite_singleton] at he
  rcases he with (((⟨h, rfl⟩ | ⟨h, rfl⟩) | ⟨h, rfl⟩) | ⟨h, rfl⟩)
  · exact ⟨⟨a, b, ha, hb, rfl⟩, ⟨a, b + 1, ha, by omega, rfl⟩⟩
  · exact ⟨⟨a, b, ha, hb, rfl⟩, ⟨a + 1, b, by omega, hb, rfl⟩⟩
  · exact ⟨⟨a, b, ha, hb, rfl⟩, ⟨a + 1, b + 1, by omega, by omega, rfl⟩⟩
  · exact ⟨⟨a, b, ha, hb, rfl⟩, ⟨a + 1, b - 1, by omega, by omega, rfl⟩⟩

lemma allEdges_present (center : Coord) (radiusKm : ℝ) (gridSize : ℤ) (N : ℕ) :
    ∀ e ∈ (gridCells N).flatMap (cellEdges N),
      ((Graph.mk ((gridCells N).map (gridNode center radiusKm gridSize))).getNode
        e.1).isSome ∧
      ((Graph.mk ((gridCells N).map (gridNode center radiusKm gridSize))).getNode
        e.2).isSome := by
  intro e he
  obtain ⟨c, hc, hce⟩ := List.mem_flatMap.mp he
  obtain ⟨⟨u1, v1, hu1, hv1, he1⟩, ⟨u2, v2, hu2, hv2, he2⟩⟩ :=
    cellEdges_endpoints N c hc e hce
  constructor
  · rw [he1]
    show (findNode ((gridCells N).map (gridNode center radiusKm gridSize))
      (gridId u1 v1)).isSome = true
    rw [findNode_gridNodes center radiusKm gridSize (gridCells N) u1 v1
      (gridCells_mem.mpr ⟨hu1, hv1⟩)]
    rfl
  · rw [he2]
    show (findNode ((gridCells N).map (gridNode center radiusKm gridSize))
      (gridId u2 v2)).isSome = true
    rw [findNode_gridNodes center radiusKm gridSize (gridCells N) u2 v2
      (gridCells_mem.mpr ⟨hu2, hv2⟩)]
    rfl

/-- Claim C2: for every center, radius and integer `n ≥ 2`,
`createGridGraph` (invoked, as in the module, on a fresh graph)
produces exactly `n·n` nodes, in which every interior node carries
exactly 8 neighbor-list entries, every corner node exactly 3, and every
other (non-corner boundary) node exactly 5; for `n ≤ 0` it produces a
graph with no nodes (hence no edges). -/
theorem claim_C2 (center : Coord) (radiusKm : ℝ) (n : ℤ) :
    (2 ≤ n →
      ((Graph.mk []).createGridGraph center radiusKm n).nodes.length =
        n.toNat * n.toNat ∧
      ∀ i j : ℕ, i < n.toNat → j < n.toNat →
        ∃ nd, ((Graph.mk []).createGridGraph center radiusKm n).getNode (gridId i j) =
            some nd ∧
          nd.neighbors.length =
            (if 0 < i ∧ i + 1 < n.toNat ∧ 0 < j ∧ j + 1 < n.toNat then 8
             else if (i = 0 ∨ i + 1 = n.toNat) ∧ (j = 0 ∨ j + 1 = n.toNat) then 3
             else 5)) ∧
    (n ≤ 0 → ((Graph.mk []).createGridGraph center radiusKm n).nodes = []) := by
  have hunfold : (Graph.mk []).createGridGraph center radiusKm n =
      addEdges (Graph.mk ((gridCells n.toNat).map (gridNode center radiusKm n)))
        ((gridCells n.toNat).flatMap (cellEdges n.toNat)) := by
    unfold Graph.createGridGraph
    rw [gridEdgesFold]
    exact congrArg (fun l => addEdges (Graph.mk l)
      ((gridCells n.toNat).flatMap (cellEdges n.toNat))) (phase1_nodes center radiusKm n)
  constructor
  · intro hn
    have hN2 : 2 ≤ n.toNat := by omega
    constructor
    · rw [hunfold, addEdges_nodesLength]
      show ((gridCells n.toNat).map _).length = n.toNat * n.toNat
      rw [List.length_map, gridCells_length]
    · intro i j hi hj
      rw [hunfold, addEdges_getNode _ _ (allEdges_present center radiusKm n n.toNat)
        (gridId i j)]
      have hfind : (Graph.mk ((gridCells n.toNat).map
          (gridNode center radiusKm n))).getNode (gridId i j) =
          some (gridNode center radiusKm n (i, j)) :=
        findNode_gridNodes center radiusKm n (gridCells n.toNat) i j
          (gridCells_mem.mpr ⟨hi, hj⟩)
      rw [hfind]
      refine ⟨_, rfl, ?_⟩
      show ((gridNode center radiusKm n (i, j)).neighbors ++
        ((gridCells n.toNat).flatMap (cellEdges n.toNat)).flatMap
          (edgeContrib · (gridId i j))).length = _
      have hnil : (gridNode center radiusKm n (i, j)).neighbors = [] := rfl
      rw [hnil, List.nil_append]
      exact degree_sum n.toNat i j hN2 hi hj
  · intro hn
    have h0 : n.toNat = 0 := by omega
    unfold Graph.createGridGraph
    rw [h0]
    rfl

theorem claim_C2_witness :
    (((Graph.mk []).createGridGraph ⟨0, 0⟩ 5 2).nodes.length =
      (2 : ℤ).toNat * (2 : ℤ).toNat) ∧
    ∃ nd, ((Graph.mk []).createGridGraph ⟨0, 0⟩ 5 2).getNode (gridId 0 0) = some nd ∧
      nd.neighbors.length = 3 := by
  have h := claim_C2 ⟨0, 0⟩ 5 2
  refine ⟨(h.1 (by norm_num)).1, ?_⟩
  obtain ⟨nd, h1, h2⟩ := (h.1 (by norm_num)).2 0 0 (by norm_num) (by norm_num)
  refine ⟨nd, h1, ?_⟩
  rw [h2]
  norm_num

lemma nodeAt_of_findNode {σ : List Node} {x : String} {n : Node}
    (h : findNode σ x = some n) : nodeAt σ x = n := by
  unfold nodeAt
  rw [h]
  rfl

lemma findNode_isSome_iff (σ : List Node) (x : String) :
    (findNode σ x).isSome ↔ x ∈ σ.map Node.id := by
  induction σ with
  | nil => simp [findNode]
  | cons a as ih =>
      simp only [findNode, List.find?_cons, List.map_cons, List.mem_cons]
      cases hbeq : (a.id == x) with
      | true =>
          simp only [Option.isSome_some, true_iff]
          have hax : a.id = x := by simpa using hbeq
          exact Or.inl hax.symm
      | false =>
          rw [show (List.find? (fun n => n.id == x) as).isSome ↔ x ∈ as.map Node.id
            from ih]
          have : ¬ x = a.id := by
            intro h
            subst h
            simp at hbeq
          simp [this]

lemma structProj_parts {m n : Node} (h : structProj m = structProj n) :
    m.id = n.id ∧ m.lat = n.lat ∧ m.lng = n.lng ∧ m.neighbors = n.neighbors := by
  unfold structProj at h
  simpa [Prod.ext_iff] using h

lemma map_id_of_structEq {σ1 σ2 : List Node}
    (h : σ1.map structProj = σ2.map structProj) :
    σ1.map Node.id = σ2.map Node.id := by
  have h2 := congrArg (List.map Prod.fst) h
  simpa [List.map_map, Function.comp] using h2

lemma findNode_structEq : ∀ (σ1 σ2 : List Node),
    σ1.map structProj = σ2.map structProj →
    ∀ x, (findNode σ1 x).map structProj = (findNode σ2 x).map structProj := by
  intro σ1
  induction σ1 with
  | nil =>
      intro σ2 h x
      cases σ2 with
      | nil => rfl
      | cons b bs => simp at h
  | cons a as ih =>
      intro σ2 h x
      cases σ2 with
      | nil => simp at h
      | cons b bs =>
          simp only [List.map_cons, List.cons.injEq] at h
          obtain ⟨hab, htl⟩ := h
          obtain ⟨hid, _, _, _⟩ := structProj_parts hab
          simp only [findNode, List.find?_cons]
          cases hbeq : (a.id == x) with
          | true =>
              have : (b.id == x) = true := by rw [← hid]; exact hbeq
              rw [this]
              simpa using hab
          | false =>
              have : (b.id == x) = false := by rw [← hid]; exact hbeq
              rw [this]
              exact ih bs htl x

lemma nodeAt_structEq {σ1 σ2 : List Node}
    (h : σ1.map structProj = σ2.map structProj) (x : String) :
    structProj (nodeAt σ1 x) = structProj (nodeAt σ2 x) := by
  have hf := findNode_structEq σ1 σ2 h x
  unfold nodeAt
  cases h1 : findNode σ1 x <;> cases h2 : findNode σ2 x <;>
    rw [h1, h2] at hf <;> simp at hf <;> simp [hf]

lemma distId_structEq {σ1 σ2 : List Node}
    (h : σ1.map structProj = σ2.map structProj) (a b : String) :
    distId σ1 a b = distId σ2 a b := by
  obtain ⟨_, hlat1, hlng1, _⟩ := structProj_parts (nodeAt_structEq h a)
  obtain ⟨_, hlat2, hlng2, _⟩ := structProj_parts (nodeAt_structEq h b)
  unfold distId
  rw [hlat1, hlng1, hlat2, hlng2]

lemma neighbors_structEq {σ1 σ2 : List Node}
    (h : σ1.map structProj = σ2.map structProj) (x : String) :
    (nodeAt σ1 x).neighbors = (nodeAt σ2 x).neighbors :=
  (structProj_parts (nodeAt_structEq h x)).2.2.2

lemma coords_structEq {σ1 σ2 : List Node}
    (h : σ1.map structProj = σ2.map structProj) (x : String) :
    (nodeAt σ1 x).lat = (nodeAt σ2 x).lat ∧ (nodeAt σ1 x).lng = (nodeAt σ2 x).lng := by
  obtain ⟨_, h1, h2, _⟩ := structProj_parts (nodeAt_structEq h x)
  exact ⟨h1, h2⟩

lemma ValidPath_structEq {σ1 σ2 : List Node}
    (h : σ1.map structProj = σ2.map structProj) (q : List String) :
    ValidPath σ1 q ↔ ValidPath σ2 q := by
  unfold ValidPath
  constructor <;> intro ⟨h1, h2⟩ <;> refine ⟨h1, ?_⟩
  · exact List.Chain'.imp (fun a b hadj => by
      rw [← neighbors_structEq h a]; exact hadj) h2
  · exact List.Chain'.imp (fun a b hadj => by
      rw [neighbors_structEq h a]; exact hadj) h2

lemma idPathCost_structEq {σ1 σ2 : List Node}
    (h : σ1.map structProj = σ2.map structProj) :
    ∀ q, idPathCost σ1 q = idPathCost σ2 q := by
  intro q
  induction q with
  | nil => rfl
  | cons a rest ih =>
      cases rest with
      | nil => rfl
      | cons b rest2 =>
          show distId σ1 a b + _ = distId σ2 a b + _
          rw [distId_structEq h, ih]

lemma pickMin_spec (σ : List Node) : ∀ (os : List String) (o : String),
    pickMin σ o os ∈ o :: os ∧ ∀ x ∈ o :: os, fscore σ (pickMin σ o os) ≤ fscore σ x := by
  intro os
  induction os with
  | nil =>
      intro o
      refine ⟨List.mem_singleton_self o, ?_⟩
      intro x hx
      simp only [List.mem_singleton] at hx
      subst hx
      exact le_rfl
  | cons y ys ih =>
      intro o
      have hstep : pickMin σ o (y :: ys) =
          if fscore σ y < fscore σ o then pickMin σ y ys else pickMin σ o ys := rfl
      by_cases hcmp : fscore σ y < fscore σ o
      · rw [hstep, if_pos hcmp]
        obtain ⟨hmem, hmin⟩ := ih y
        constructor
        · exact List.mem_cons_of_mem o hmem
        · intro x hx
          rcases List.mem_cons.mp hx with rfl | hx2
          · exact (hmin y (List.mem_cons_self y ys)).trans hcmp.le
          · exact hmin x hx2
      · rw [hstep, if_neg hcmp]
        obtain ⟨hmem, hmin⟩ := ih o
        constructor
        · rcases List.mem_cons.mp hmem with h | h
          · rw [h]; exact List.mem_cons_self o (y :: ys)
          · exact List.mem_cons_of_mem o (List.mem_cons_of_mem y h)
        · intro x hx
          rcases List.mem_cons.mp hx with rfl | hx2
          · exact hmin x (List.mem_cons_self x ys)
          · rcases List.mem_cons.mp hx2 with rfl | hx3
            · exact (hmin o (List.mem_cons_self o ys)).trans (not_lt.mp hcmp)
            · exact hmin x (List.mem_cons_of_mem o hx3)

lemma idPathCost_append_single (σ : List Node) : ∀ (q : List String) (u x : String),
    q.getLast? = some u →
    idPathCost σ (q ++ [x]) = idPathCost σ q + distId σ u x := by
  intro q
  induction q with
  | nil => intro u x h; simp at h
  | cons a rest ih =>
      intro u x hlast
      cases rest with
      | nil =>
          obtain rfl : a = u := by simpa using hlast
          show distId σ a x + idPathCost σ [x] = idPathCost σ [a] + distId σ a x
          show distId σ a x + 0 = 0 + distId σ a x
          ring
      | cons b rest2 =>
          have hlast2 : (b :: rest2).getLast? = some u := by
            rwa [List.getLast?_cons_cons] at hlast
          show distId σ a b + idPathCost σ ((b :: rest2) ++ [x]) =
            distId σ a b + idPathCost σ (b :: rest2) + distId σ u x
          rw [ih u x hlast2]
          ring

lemma idPathCost_split (σ : List Node) : ∀ (q1 q2 : List String) (v : String),
    idPathCost σ (q1 ++ v :: q2) = idPathCost σ (q1 ++ [v]) + idPathCost σ (v :: q2) := by
  intro q1
  induction q1 with
  | nil =>
      intro q2 v
      show idPathCost σ (v :: q2) = idPathCost σ [v] + idPathCost σ (v :: q2)
      show idPathCost σ (v :: q2) = 0 + idPathCost σ (v :: q2)
      ring
  | cons a rest ih =>
      intro q2 v
      cases rest with
      | nil =>
          show distId σ a v + idPathCost σ (v :: q2) =
            (distId σ a v + idPathCost σ [v]) + idPathCost σ (v :: q2)
          show distId σ a v + idPathCost σ (v :: q2) =
            (distId σ a v + 0) + idPathCost σ (v :: q2)
          ring
      | cons b rest2 =>
          show distId σ a b + idPathCost σ ((b :: rest2) ++ v :: q2) =
            (distId σ a b + idPathCost σ ((b :: rest2) ++ [v])) + idPathCost σ (v :: q2)
          rw [ih q2 v]
          ring

/-- Consistency of the geodesic heuristic along a path: the direct
distance from the head to the last node bounds the path cost from
below. -/
lemma dist_head_last_le (σ : List Node) : ∀ (q : List String) (v w : String),
    q.head? = some v → q.getLast? = some w →
    List.Chain' (fun a b => b ∈ (nodeAt σ a).neighbors) q →
    distId σ v w ≤ idPathCost σ q := by
  intro q
  induction q with
  | nil => intro v w h; simp at h
  | cons a rest ih =>
      intro v w hhead hlast hchain
      obtain rfl : a = v := by simpa using hhead
      cases rest with
      | nil =>
          obtain rfl : a = w := by simpa using hlast
          show distId σ a a ≤ idPathCost σ [a]
          unfold distId
          rw [hav_self]
          exact le_rfl
      | cons b rest2 =>
          have hlast2 : (b :: rest2).getLast? = some w := by
            rwa [List.getLast?_cons_cons] at hlast
          obtain ⟨hadj, hchain2⟩ := List.chain'_cons.mp hchain
          have ih2 := ih b w (by simp) hlast2 hchain2
          have htri := hav_triangle (nodeAt σ a).lat (nodeAt σ a).lng
            (nodeAt σ b).lat (nodeAt σ b).lng (nodeAt σ w).lat (nodeAt σ w).lng
          show distId σ a w ≤ distId σ a b + idPathCost σ (b :: rest2)
          unfold distId at ih2 ⊢
          linarith

lemma totalDistanceOf_map (σ : List Node) : ∀ q : List String,
    totalDistanceOf (q.map (coordAt σ)) = idPathCost σ q := by
  intro q
  induction q with
  | nil => rfl
  | cons a rest ih =>
      cases rest with
      | nil => rfl
      | cons b rest2 =>
          show haversineDistance (coordAt σ a).lat (coordAt σ a).lng
              (coordAt σ b).lat (coordAt σ b).lng +
              totalDistanceOf ((b :: rest2).map (coordAt σ)) =
            distId σ a b + idPathCost σ (b :: rest2)
          rw [ih]
          rfl

/-! ### The A* loop invariant -/

lemma nodeAt_updateNode_other (σ : List Node) (i : String) (φ : Node → Node)
    (hφ : ∀ n, (φ n).id = n.id) {j : String} (hne : j ≠ i) :
    nodeAt (updateNode σ i φ) j = nodeAt σ j := by
  unfold nodeAt
  rw [findNode_updateNode_eq σ i φ hφ j, if_neg hne]

lemma nodeAt_updateNode_self (σ : List Node) (i : String) (φ : Node → Node)
    (hφ : ∀ n, (φ n).id = n.id) (n : Node) (h : findNode σ i = some n) :
    nodeAt (updateNode σ i φ) i = φ n := by
  unfold nodeAt
  rw [findNode_updateNode_eq σ i φ hφ i, if_pos rfl, h]
  rfl

lemma mem_of_findNode {σ : List Node} {x : String} {n : Node}
    (h : findNode σ x = some n) : n ∈ σ :=
  List.mem_of_find?_eq_some h

lemma findNode_of_mem_ids {σ : List Node} {x : String} (h : x ∈ σ.map Node.id) :
    findNode σ x = some (nodeAt σ x) := by
  have hs := (findNode_isSome_iff σ x).mpr h
  cases hf : findNode σ x with
  | none => rw [hf] at hs; simp at hs
  | some n => rw [nodeAt_of_findNode hf]

/-- Relaxing one neighbor of the just-closed node `cur` preserves the
invariant and extends its relaxation postcondition by that neighbor. -/
lemma relax_step (σ0 : List Node) (t : Node) (sid : String)
    (closed closedE : List String) (cur : String) (curN : Node)
    (σ : List Node) (openL : List String) (S : List String) (nb : String)
    (hinv : AInv σ0 t sid σ openL closed closedE)
    (hcur : cur ∈ closed) (hfroz : nodeAt σ cur = curN) (hcurid : curN.id = cur)
    (hnb : nb ∈ curN.neighbors)
    (hexp : Expanded σ openL closed cur S) :
    AInv σ0 t sid (relaxNbr t curN closed (σ, openL) nb).1
      (relaxNbr t curN closed (σ, openL) nb).2 closed closedE ∧
    nodeAt (relaxNbr t curN closed (σ, openL) nb).1 cur = curN ∧
    Expanded (relaxNbr t curN closed (σ, openL) nb).1
      (relaxNbr t curN closed (σ, openL) nb).2 closed cur (S ++ [nb]) := by
  have hnb_ids : nb ∈ σ0.map Node.id := by
    have hcur_ids : cur ∈ σ0.map Node.id := hinv.closedSub cur hcur
    have hcur_ids2 : cur ∈ σ.map Node.id := by
      rw [map_id_of_structEq hinv.frame]; exact hcur_ids
    have h0 : findNode σ0 cur = some (nodeAt σ0 cur) := findNode_of_mem_ids hcur_ids
    have hmem0 : nodeAt σ0 cur ∈ σ0 := mem_of_findNode h0
    have hnbrs : curN.neighbors = (nodeAt σ0 cur).neighbors := by
      rw [← hfroz]
      exact neighbors_structEq hinv.frame cur
    exact hinv.closure _ hmem0 nb (hnbrs ▸ hnb)
  have hnb_ids_σ : nb ∈ σ.map Node.id := by
    rw [map_id_of_structEq hinv.frame]; exact hnb_ids
  by_cases hclosed : nb ∈ closed
  · -- closed neighbors are skipped
    have hstate : relaxNbr t curN closed (σ, openL) nb = (σ, openL) := by
      unfold relaxNbr
      rw [if_pos hclosed]
    rw [hstate]
    refine ⟨hinv, hfroz, ?_⟩
    intro x hx hxnc
    rcases List.mem_append.mp hx with h | h
    · exact hexp x h hxnc
    · simp only [List.mem_singleton] at h
      subst h
      exact absurd hclosed hxnc
  · have hfind : findNode σ nb = some (nodeAt σ nb) := findNode_of_mem_ids hnb_ids_σ
    set nbr := nodeAt σ nb with hnbr
    have hnbid : nbr.id = nb := findNode_eq_id σ nb nbr hfind
    set tG := curN.g + curN.distanceTo nbr with htG
    have hstate : relaxNbr t curN closed (σ, openL) nb =
        if nb ∈ openL ∧ tG ≥ nbr.g then (σ, openL)
        else (updateNode σ nb fun n =>
            { n with parent := some curN.id, g := tG,
                     h := nbr.distanceTo t, f := tG + nbr.distanceTo t },
          if nb ∈ openL then openL else openL ++ [nb]) := by
      unfold relaxNbr
      rw [if_neg hclosed, hfind]
    have htG_nonneg : 0 ≤ tG := by
      have h1 : 0 ≤ curN.g := by
        rw [← hfroz]
        exact hinv.gNonneg cur (Or.inr hcur)
      have h2 : 0 ≤ curN.distanceTo nbr := hav_nonneg _ _ _ _
      linarith
    by_cases hskip : nb ∈ openL ∧ tG ≥ nbr.g
    · -- no improvement: state unchanged, but the bound holds already
      rw [hstate, if_pos hskip]
      refine ⟨hinv, hfroz, ?_⟩
      intro x hx hxnc
      rcases List.mem_append.mp hx with h | h
      · exact hexp x h hxnc
      · simp only [List.mem_singleton] at h
        subst h
        refine ⟨hskip.1, ?_⟩
        have h2 : nbr.g ≤ tG := hskip.2
        have h3 : tG = curN.g + haversineDistance curN.lat curN.lng nbr.lat nbr.lng := htG
        rw [hfroz, ← hnbr]
        linarith
    · -- the neighbor is (re)written and, if new, pushed
      rw [hstate, if_neg hskip]
      set φ : Node → Node := fun n =>
        { n with parent := some curN.id, g := tG,
                 h := nbr.distanceTo t, f := tG + nbr.distanceTo t } with hφ
      have hφid : ∀ n, (φ n).id = n.id := fun n => rfl
      set openL2 : List String := if nb ∈ openL then openL else openL ++ [nb] with hopen2
      have hO1 : ∀ x ∈ openL, x ∈ openL2 := by
        intro x hx
        rw [hopen2]
        split_ifs
        · exact hx
        · exact List.mem_append.mpr (Or.inl hx)
      have hO2 : ∀ x ∈ openL2, x ∈ openL ∨ x = nb := by
        intro x hx
        rw [hopen2] at hx
        split_ifs at hx
        · exact Or.inl hx
        · rcases List.mem_append.mp hx with h | h
          · exact Or.inl h
          · simp only [List.mem_singleton] at h
            exact Or.inr h
      have hO3 : nb ∈ openL2 := by
        rw [hopen2]
        split_ifs with h
        · exact h
        · exact List.mem_append.mpr (Or.inr (List.mem_singleton_self nb))
      have hO4 : openL2.Nodup := by
        rw [hopen2]
        split_ifs with h
        · exact hinv.openNodup
        · refine List.Nodup.append hinv.openNodup (List.nodup_singleton nb) ?_
          intro a ha hb
          simp only [List.mem_singleton] at hb
          subst hb
          exact h ha
      have hupd_other : ∀ j, j ≠ nb →
          nodeAt (updateNode σ nb φ) j = nodeAt σ j := fun j hj =>
        nodeAt_updateNode_other σ nb φ hφid hj
      have hupd_self : nodeAt (updateNode σ nb φ) nb = φ nbr :=
        nodeAt_updateNode_self σ nb φ hφid nbr hfind
      have hcur_ne : cur ≠ nb := fun h => hclosed (h ▸ hcur)
      have hfroz2 : nodeAt (updateNode σ nb φ) cur = curN := by
        rw [hupd_other cur hcur_ne, hfroz]
      have hsid_ne : sid ≠ nb := by
        intro h
        subst h
        rcases hinv.startMem with hs | hs
        · -- sid in the open set: the no-improvement guard would have fired
          apply hskip
          refine ⟨hs, ?_⟩
          have hg0 : nbr.g = 0 := by rw [hnbr]; exact hinv.startG.1
          rw [hg0]
          exact htG_nonneg
        · exact hclosed hs
      have hgnew : (nodeAt (updateNode σ nb φ) nb).g = tG := by rw [hupd_self]
      have hlatnew : (nodeAt (updateNode σ nb φ) nb).lat = nbr.lat := by rw [hupd_self]
      have hlngnew : (nodeAt (updateNode σ nb φ) nb).lng = nbr.lng := by rw [hupd_self]
      have hgmono : ∀ j, j ∈ openL ∨ j ∈ closed →
          (nodeAt (updateNode σ nb φ) j).g ≤ (nodeAt σ j).g := by
        intro j hj
        by_cases hjnb : j = nb
        · subst hjnb
          rw [hgnew]
          rcases hj with h | h
          · -- in the open set: the update only happens on strict improvement
            have : ¬ tG ≥ nbr.g := fun hge => hskip ⟨h, hge⟩
            rw [← hnbr]
            linarith [not_le.mp this]
          · exact absurd h hclosed
        · rw [hupd_other j hjnb]
      have hframe2 : (updateNode σ nb φ).map structProj = σ0.map structProj := by
        rw [structProj_updateNode σ nb φ (fun n => rfl)]
        exact hinv.frame
      refine ⟨?_, hfroz2, ?_⟩
      · refine {
          frame := hframe2
          idsNodup := hinv.idsNodup
          closure := hinv.closure
          tFound := hinv.tFound
          openNodup := hO4
          closedNodup := hinv.closedNodup
          disj := ?_
          openSub := ?_
          closedSub := hinv.closedSub
          closedESub := hinv.closedESub
          goalOpen := hinv.goalOpen
          startMem := Or.imp (hO1 sid) id hinv.startMem
          startG := ?_
          gNonneg := ?_
          parentProps := ?_
          closedOrder := ?_
          fh := ?_
          closedExpanded := ?_ }
        · intro x hx
          rcases hO2 x hx with h | h
          · exact hinv.disj x h
          · exact h ▸ hclosed
        · intro x hx
          rcases hO2 x hx with h | h
          · exact hinv.openSub x h
          · exact h ▸ hnb_ids
        · rw [hupd_other sid hsid_ne]
          exact hinv.startG
        · intro x hx
          by_cases hxnb : x = nb
          · subst hxnb
            rw [hgnew]
            exact htG_nonneg
          · rw [hupd_other x hxnb]
            apply hinv.gNonneg
            rcases hx with h | h
            · rcases hO2 x h with h2 | h2
              · exact Or.inl h2
              · exact absurd h2 hxnb
            · exact Or.inr h
        · intro x hx hxsid
          by_cases hxnb : x = nb
          · subst hxnb
            refine ⟨cur, ?_, hcur, ?_, ?_⟩
            · rw [hupd_self]
              show some curN.id = some cur
              rw [hcurid]
            · rw [hfroz2]
              exact hnb
            · rw [hgnew, hfroz2, hlatnew, hlngnew]
              exact htG
          · have hx2 : x ∈ openL ∨ x ∈ closed := by
              rcases hx with h | h
              · rcases hO2 x h with h2 | h2
                · exact Or.inl h2
                · exact absurd h2 hxnb
              · exact Or.inr h
            obtain ⟨p, hp1, hp2, hp3, hp4⟩ := hinv.parentProps x hx2 hxsid
            have hpnb : p ≠ nb := fun h => hclosed (h ▸ hp2)
            refine ⟨p, ?_, hp2, ?_, ?_⟩
            · rw [hupd_other x hxnb]; exact hp1
            · rw [hupd_other p hpnb]; exact hp3
            · rw [hupd_other x hxnb, hupd_other p hpnb]; exact hp4
        · intro k hk hksid
          obtain ⟨p, hp1, hp2⟩ := hinv.closedOrder k hk hksid
          have hknb : closed.get ⟨k, hk⟩ ≠ nb := by
            intro h
            exact hclosed (h ▸ List.get_mem closed _ _)
          refine ⟨p, ?_, hp2⟩
          rw [hupd_other _ hknb]
          exact hp1
        · intro x hx
          by_cases hxnb : x = nb
          · subst hxnb
            rw [hupd_self]
            constructor
            · show nbr.distanceTo t = haversineDistance nbr.lat nbr.lng t.lat t.lng
              rfl
            · show tG + nbr.distanceTo t = tG + nbr.distanceTo t
              rfl
          · rcases hO2 x hx with h | h
            · rw [hupd_other x hxnb]
              exact hinv.fh x h
            · exact absurd h hxnb
        · intro u hu
          have huc : u ∈ closed := hinv.closedESub u hu
          have hunb : u ≠ nb := fun h => hclosed (h ▸ huc)
          rw [hupd_other u hunb]
          intro nb2 hnb2 hnb2nc
          obtain ⟨hmem, hbound⟩ := hinv.closedExpanded u hu nb2 hnb2 hnb2nc
          refine ⟨hO1 nb2 hmem, ?_⟩
          by_cases hnb2nb : nb2 = nb
          · subst hnb2nb
            rw [hupd_other u hunb, hlatnew, hlngnew]
            calc (nodeAt (updateNode σ nb2 φ) nb2).g ≤ (nodeAt σ nb2).g :=
                  hgmono nb2 (Or.inl hmem)
              _ ≤ _ := hbound
          · rw [hupd_other u hunb, hupd_other nb2 hnb2nb]
            exact hbound
      · -- the extended relaxation postcondition for `cur`
        intro x hx hxnc
        rcases List.mem_append.mp hx with h | h
        · obtain ⟨hmem, hbound⟩ := hexp x h hxnc
          refine ⟨hO1 x hmem, ?_⟩
          rw [hfroz2]
          by_cases hxnb : x = nb
          · subst hxnb
            rw [hlatnew, hlngnew]
            calc (nodeAt (updateNode σ x φ) x).g ≤ (nodeAt σ x).g :=
                  hgmono x (Or.inl hmem)
              _ ≤ _ := by rw [hfroz] at hbound; exact hbound
          · rw [hupd_other x hxnb]
            rw [hfroz] at hbound
            exact hbound
        · simp only [List.mem_singleton] at h
          subst h
          refine ⟨hO3, ?_⟩
          rw [hfroz2, hgnew, hlatnew, hlngnew]
          show tG ≤ curN.g + haversineDistance curN.lat curN.lng nbr.lat nbr.lng
          exact le_of_eq htG

/-- A relaxation pass never rewrites a node that is in the closed set
(the `if (closedSet.has(neighborId)) continue` guard). -/
lemma relaxNbr_nodeAt_closed (t curN : Node) (closed : List String)
    (st : List Node × List String) (nb : String) {x : String} (hx : x ∈ closed) :
    nodeAt (relaxNbr t curN closed st nb).1 x = nodeAt st.1 x := by
  by_cases h1 : nb ∈ closed
  · have hred : relaxNbr t curN closed st nb = st := by
      unfold relaxNbr
      rw [if_pos h1]
    rw [hred]
  · cases hf : findNode st.1 nb with
    | none =>
        have hred : relaxNbr t curN closed st nb = st := by
          unfold relaxNbr
          rw [if_neg h1, hf]
        rw [hred]
    | some nbr =>
        have hred : relaxNbr t curN closed st nb =
            if nb ∈ st.2 ∧ curN.g + curN.distanceTo nbr ≥ nbr.g then st
            else (updateNode st.1 nb fun n =>
              { n with parent := some curN.id, g := curN.g + curN.distanceTo nbr,
                       h := nbr.distanceTo t,
                       f := curN.g + curN.distanceTo nbr + nbr.distanceTo t },
              if nb ∈ st.2 then st.2 else st.2 ++ [nb]) := by
          unfold relaxNbr
          rw [if_neg h1, hf]
        rw [hred]
        by_cases h2 : nb ∈ st.2 ∧ curN.g + curN.distanceTo nbr ≥ nbr.g
        · rw [if_pos h2]
        · rw [if_neg h2]
          exact nodeAt_updateNode_other st.1 nb
            (fun n =>
              { n with parent := some curN.id, g := curN.g + curN.distanceTo nbr,
                       h := nbr.distanceTo t,
                       f := curN.g + curN.distanceTo nbr + nbr.distanceTo t })
            (fun n => rfl) (fun h => h1 (h ▸ hx))

lemma expandFold_nodeAt_closed (t curN : Node) (closed : List String) :
    ∀ (nbrs : List String) (st : List Node × List String) {x : String},
      x ∈ closed →
      nodeAt (nbrs.foldl (relaxNbr t curN closed) st).1 x = nodeAt st.1 x := by
  intro nbrs
  induction nbrs with
  | nil => intro st x _; rfl
  | cons nb rest ih =>
      intro st x hx
      rw [List.foldl_cons, ih (relaxNbr t curN closed st nb) hx,
        relaxNbr_nodeAt_closed t curN closed st nb hx]

/-- Folding the relaxation over a sublist of the just-closed node's
neighbors preserves the invariant and accumulates the relaxation
postcondition. -/
lemma relax_fold (σ0 : List Node) (t : Node) (sid : String)
    (closed closedE : List String) (cur : String) (curN : Node) :
    ∀ (S2 : List String) (σ : List Node) (openL : List String) (S : List String),
    AInv σ0 t sid σ openL closed closedE →
    cur ∈ closed →
    nodeAt σ cur = curN → curN.id = cur →
    (∀ nb ∈ S2, nb ∈ curN.neighbors) →
    Expanded σ openL closed cur S →
    AInv σ0 t sid (S2.foldl (relaxNbr t curN closed) (σ, openL)).1
        (S2.foldl (relaxNbr t curN closed) (σ, openL)).2 closed closedE ∧
      nodeAt (S2.foldl (relaxNbr t curN closed) (σ, openL)).1 cur = curN ∧
      Expanded (S2.foldl (relaxNbr t curN closed) (σ, openL)).1
        (S2.foldl (relaxNbr t curN closed) (σ, openL)).2 closed cur (S ++ S2) := by
  intro S2
  induction S2 with
  | nil =>
      intro σ openL S hinv hcur hfroz hcurid hnbrs hexp
      simp only [List.foldl_nil, List.append_nil]
      exact ⟨hinv, hfroz, hexp⟩
  | cons nb rest ih =>
      intro σ openL S hinv hcur hfroz hcurid hnbrs hexp
      obtain ⟨hinv2, hfroz2, hexp2⟩ :=
        relax_step σ0 t sid closed closedE cur curN σ openL S nb hinv hcur hfroz hcurid
          (hnbrs nb (List.mem_cons_self nb rest)) hexp
      have hrec := ih (relaxNbr t curN closed (σ, openL) nb).1
        (relaxNbr t curN closed (σ, openL) nb).2 (S ++ [nb]) hinv2 hcur hfroz2 hcurid
        (fun x hx => hnbrs x (List.mem_cons_of_mem nb hx)) hexp2
      simp only [List.foldl_cons]
      rw [show S ++ nb :: rest = (S ++ [nb]) ++ rest by simp]
      exact hrec

/-- Moving the selected (non-goal) node from the open to the closed set
preserves the invariant; the just-closed node is not yet expanded. -/
lemma close_step (σ0 : List Node) (t : Node) (sid : String) (σ : List Node)
    (openL closed : List String)
    (hinv : AInv σ0 t sid σ openL closed closed)
    (cur : String) (hcur : cur ∈ openL) (hcurt : cur ≠ t.id) :
    AInv σ0 t sid σ (openL.erase cur) (closed ++ [cur]) closed := by
  have hcurnc : cur ∉ closed := hinv.disj cur hcur
  have hmem_erase : ∀ {x}, x ∈ openL.erase cur ↔ x ≠ cur ∧ x ∈ openL :=
    fun {x} => List.Nodup.mem_erase_iff hinv.openNodup
  have hmem_app : ∀ {x}, x ∈ closed ++ [cur] ↔ x ∈ closed ∨ x = cur := by
    intro x
    simp [List.mem_append]
  refine {
    frame := hinv.frame
    idsNodup := hinv.idsNodup
    closure := hinv.closure
    tFound := hinv.tFound
    openNodup := List.Nodup.erase cur hinv.openNodup
    closedNodup := ?_
    disj := ?_
    openSub := fun x hx => hinv.openSub x (List.mem_of_mem_erase hx)
    closedSub := ?_
    closedESub := fun x hx => List.mem_append.mpr (Or.inl hx)
    goalOpen := ?_
    startMem := ?_
    startG := hinv.startG
    gNonneg := ?_
    parentProps := ?_
    closedOrder := ?_
    fh := fun x hx => hinv.fh x (List.mem_of_mem_erase hx)
    closedExpanded := ?_ }
  · refine List.Nodup.append hinv.closedNodup (List.nodup_singleton cur) ?_
    intro a ha hb
    simp only [List.mem_singleton] at hb
    subst hb
    exact hcurnc ha
  · intro x hx
    obtain ⟨hxc, hxo⟩ := hmem_erase.mp hx
    intro hmem
    rcases hmem_app.mp hmem with h | h
    · exact hinv.disj x hxo h
    · exact hxc h
  · intro x hx
    rcases hmem_app.mp hx with h | h
    · exact hinv.closedSub x h
    · exact h ▸ hinv.openSub cur hcur
  · intro hmem
    rcases hmem_app.mp hmem with h | h
    · exact hinv.goalOpen h
    · exact hcurt h.symm
  · rcases hinv.startMem with hs | hs
    · by_cases hsc : sid = cur
      · exact Or.inr (hmem_app.mpr (Or.inr hsc))
      · exact Or.inl (hmem_erase.mpr ⟨hsc, hs⟩)
    · exact Or.inr (hmem_app.mpr (Or.inl hs))
  · intro x hx
    apply hinv.gNonneg
    rcases hx with h | h
    · exact Or.inl (List.mem_of_mem_erase h)
    · rcases hmem_app.mp h with h2 | h2
      · exact Or.inr h2
      · exact Or.inl (h2 ▸ hcur)
  · intro x hx hxsid
    have hx2 : x ∈ openL ∨ x ∈ closed := by
      rcases hx with h | h
      · exact Or.inl (List.mem_of_mem_erase h)
      · rcases hmem_app.mp h with h2 | h2
        · exact Or.inr h2
        · exact Or.inl (h2 ▸ hcur)
    obtain ⟨p, hp1, hp2, hp3, hp4⟩ := hinv.parentProps x hx2 hxsid
    exact ⟨p, hp1, List.mem_append.mpr (Or.inl hp2), hp3, hp4⟩
  · intro k hk hksid
    by_cases hklt : k < closed.length
    · have hget : (closed ++ [cur]).get ⟨k, hk⟩ = closed.get ⟨k, hklt⟩ := by
        simp [List.getElem_append_left hklt]
      rw [hget] at hksid ⊢
      obtain ⟨p, hp1, hp2⟩ := hinv.closedOrder k hklt hksid
      refine ⟨p, hp1, ?_⟩
      rw [List.take_append_of_le_length (le_of_lt hklt)]
      exact hp2
    · have hklen : k = closed.length := by
        have := hk
        simp only [List.length_append, List.length_singleton] at this
        omega
      subst hklen
      have hget : (closed ++ [cur]).get ⟨closed.length, hk⟩ = cur := by
        simp
      rw [hget] at hksid ⊢
      obtain ⟨p, hp1, hp2, hp3, hp4⟩ := hinv.parentProps cur (Or.inl hcur) hksid
      refine ⟨p, hp1, ?_⟩
      rw [List.take_left]
      exact hp2
  · intro u hu
    intro nb hnb hnbnc
    have hnb2 : nb ∉ closed := fun h => hnbnc (List.mem_append.mpr (Or.inl h))
    have hnbcur : nb ≠ cur := fun h => hnbnc (hmem_app.mpr (Or.inr h))
    obtain ⟨hmem, hbound⟩ := hinv.closedExpanded u hu nb hnb hnb2
    exact ⟨hmem_erase.mpr ⟨hnbcur, hmem⟩, hbound⟩

/-- Frontier lemma: between iterations (all closed nodes expanded and
optimal), any valid path from the start to a non-closed vertex passes
an open node whose `g` plus remaining direct distance bounds the path
cost from below. -/
lemma reach_bound (σ0 : List Node) (t : Node) (sid : String) (σ : List Node)
    (openL closed : List String)
    (hinv : AInv σ0 t sid σ openL closed closed)
    (hopt : ClosedOpt σ0 sid σ closed) :
    ∀ q : List String, ValidPath σ0 q → q.head? = some sid →
      ∀ v, q.getLast? = some v → v ∉ closed →
      ∃ y ∈ openL, (nodeAt σ y).g + distId σ0 y v ≤ idPathCost σ0 q := by
  intro q
  induction q using List.reverseRecOn with
  | nil => intro hq; exact absurd rfl hq.1
  | append_singleton q' w ih =>
      intro hq hh v hl hvnc
      have hvw : w = v := by simpa using hl
      subst hvw
      cases q' with
      | nil =>
          have hsid : w = sid := by simpa using hh
          subst hsid
          have hso : w ∈ openL := by
            rcases hinv.startMem with h | h
            · exact h
            · exact absurd h hvnc
          refine ⟨w, hso, ?_⟩
          have h1 : (nodeAt σ w).g = 0 := hinv.startG.1
          have h2 : distId σ0 w w = 0 := by
            unfold distId
            exact hav_self _ _
          have h3 : idPathCost σ0 ([] ++ [w]) = 0 := rfl
          rw [h1, h2, h3]
          norm_num
      | cons a q'' =>
          have hne : (a :: q'' : List String) ≠ [] := by simp
          have hchain := hq.2
          rw [List.chain'_append] at hchain
          obtain ⟨hc1, _, hadj⟩ := hchain
          obtain ⟨u, hu⟩ : ∃ u, (a :: q'').getLast? = some u :=
            ⟨(a :: q'').getLast hne, List.getLast?_eq_getLast _ hne⟩
          have hadj2 : w ∈ (nodeAt σ0 u).neighbors :=
            hadj u (by simp [hu]) w (by simp)
          have hcost : idPathCost σ0 ((a :: q'') ++ [w]) =
              idPathCost σ0 (a :: q'') + distId σ0 u w :=
            idPathCost_append_single σ0 (a :: q'') u w hu
          have ha : a = sid := by simpa using hh
          have hh' : (a :: q'').head? = some sid := by simp [ha]
          by_cases huc : u ∈ closed
          · have hgu : (nodeAt σ u).g ≤ idPathCost σ0 (a :: q'') :=
              hopt u huc (a :: q'') ⟨hne, hc1⟩ hh' hu
            have hwn : w ∈ (nodeAt σ u).neighbors := by
              rw [neighbors_structEq hinv.frame u]
              exact hadj2
            obtain ⟨hwo, hwb⟩ := hinv.closedExpanded u huc w hwn hvnc
            refine ⟨w, hwo, ?_⟩
            have hdist_eq : distId σ0 u w =
                haversineDistance (nodeAt σ u).lat (nodeAt σ u).lng
                  (nodeAt σ w).lat (nodeAt σ w).lng := by
              unfold distId
              rw [← (coords_structEq hinv.frame u).1, ← (coords_structEq hinv.frame u).2,
                ← (coords_structEq hinv.frame w).1, ← (coords_structEq hinv.frame w).2]
            have hdww : distId σ0 w w = 0 := by
              unfold distId
              exact hav_self _ _
            have hwb2 : (nodeAt σ w).g ≤ (nodeAt σ u).g + distId σ0 u w := by
              rw [hdist_eq]
              exact hwb
            rw [hdww, hcost]
            linarith
          · obtain ⟨y, hy, hyb⟩ := ih ⟨hne, hc1⟩ hh' u hu huc
            refine ⟨y, hy, ?_⟩
            have htri : distId σ0 y w ≤ distId σ0 y u + distId σ0 u w := by
              unfold distId
              exact hav_triangle _ _ _ _ _ _
            rw [hcost]
            linarith

lemma distId_frame {σ0 σ : List Node} (hfr : σ.map structProj = σ0.map structProj)
    (a b : String) :
    distId σ0 a b = haversineDistance (nodeAt σ a).lat (nodeAt σ a).lng
      (nodeAt σ b).lat (nodeAt σ b).lng := by
  unfold distId
  rw [← (coords_structEq hfr a).1, ← (coords_structEq hfr a).2,
    ← (coords_structEq hfr b).1, ← (coords_structEq hfr b).2]

lemma mem_ids_frame {σ0 σ : List Node} (hfr : σ.map structProj = σ0.map structProj)
    {p : String} (h : p ∈ σ0.map Node.id) : findNode σ p = some (nodeAt σ p) := by
  apply findNode_of_mem_ids
  rw [map_id_of_structEq hfr]
  exact h

/-- With a consistent geodesic heuristic, the minimum-`f` open node's
`g` underapproximates the cost of every valid start-to-it path. -/
lemma select_opt (σ0 : List Node) (t : Node) (sid : String) (σ : List Node)
    (openL closed : List String)
    (hinv : AInv σ0 t sid σ openL closed closed)
    (hopt : ClosedOpt σ0 sid σ closed)
    (cur : String) (hcur : cur ∈ openL)
    (hmin : ∀ x ∈ openL, fscore σ cur ≤ fscore σ x) :
    ∀ q : List String, ValidPath σ0 q → q.head? = some sid →
      q.getLast? = some cur → (nodeAt σ cur).g ≤ idPathCost σ0 q := by
  intro q hq hh hl
  have hcurnc : cur ∉ closed := hinv.disj cur hcur
  obtain ⟨y, hy, hbound⟩ :=
    reach_bound σ0 t sid σ openL closed hinv hopt q hq hh cur hl hcurnc
  obtain ⟨hhy, hfy⟩ := hinv.fh y hy
  obtain ⟨hhc, hfc⟩ := hinv.fh cur hcur
  have hmin' : (nodeAt σ cur).f ≤ (nodeAt σ y).f := hmin y hy
  have htri : haversineDistance (nodeAt σ y).lat (nodeAt σ y).lng t.lat t.lng ≤
      haversineDistance (nodeAt σ y).lat (nodeAt σ y).lng
        (nodeAt σ cur).lat (nodeAt σ cur).lng +
      haversineDistance (nodeAt σ cur).lat (nodeAt σ cur).lng t.lat t.lng :=
    hav_triangle _ _ _ _ _ _
  rw [hhy] at hfy
  rw [hhc] at hfc
  rw [hfy, hfc] at hmin'
  rw [distId_frame hinv.frame y cur] at hbound
  linarith

/-- Closing the selected minimum-`f` node preserves the
optimal-closure invariant. -/
lemma closedOpt_extend (σ0 : List Node) (t : Node) (sid : String) (σ : List Node)
    (openL closed : List String)
    (hinv : AInv σ0 t sid σ openL closed closed)
    (hopt : ClosedOpt σ0 sid σ closed)
    (cur : String) (hcur : cur ∈ openL)
    (hmin : ∀ x ∈ openL, fscore σ cur ≤ fscore σ x) :
    ClosedOpt σ0 sid σ (closed ++ [cur]) := by
  intro u hu q hq hh hl
  rcases List.mem_append.mp hu with h | h
  · exact hopt u h q hq hh hl
  · simp only [List.mem_singleton] at h
    rw [h]
    exact select_opt σ0 t sid σ openL closed hinv hopt cur hcur hmin q hq hh (h ▸ hl)

/-- A relaxation pass leaves the `g` of closed nodes unchanged, hence
preserves the optimal-closure invariant. -/
lemma closedOpt_fold (σ0 : List Node) (sid : String) (t curN : Node)
    (closed2 nbrs : List String) (σ : List Node) (openL : List String)
    (hopt : ClosedOpt σ0 sid σ closed2) :
    ClosedOpt σ0 sid (nbrs.foldl (relaxNbr t curN closed2) (σ, openL)).1 closed2 := by
  intro u hu q hq hh hl
  rw [expandFold_nodeAt_closed t curN closed2 nbrs (σ, openL) hu]
  exact hopt u hu q hq hh hl

/-- Once the just-closed node's whole neighbor list is relaxed, the
invariant holds with the full closed set expanded. -/
lemma inv_upgrade (σ0 : List Node) (t : Node) (sid : String) (σ : List Node)
    (openL closed : List String) (cur : String) (curN : Node)
    (hinv : AInv σ0 t sid σ openL (closed ++ [cur]) closed)
    (hfroz : nodeAt σ cur = curN)
    (hexp : Expanded σ openL (closed ++ [cur]) cur curN.neighbors) :
    AInv σ0 t sid σ openL (closed ++ [cur]) (closed ++ [cur]) := by
  refine { hinv with closedESub := fun x hx => hx, closedExpanded := ?_ }
  intro u hu
  rcases List.mem_append.mp hu with h | h
  · exact hinv.closedExpanded u h
  · simp only [List.mem_singleton] at h
    rw [h, hfroz]
    exact hexp

lemma reconstructPath_succ (σ : List Node) (f : ℕ) (node : Node) :
    reconstructPath σ (f+1) node =
      match node.parent with
      | none => [⟨node.lat, node.lng⟩]
      | some p =>
          match findNode σ p with
          | none => [⟨node.lat, node.lng⟩]
          | some pn => reconstructPath σ f pn ++ [⟨node.lat, node.lng⟩] := rfl

lemma chain_sid (σ0 : List Node) (sid : String) (σ : List Node)
    (hg : (nodeAt σ sid).g = 0) (hp : (nodeAt σ sid).parent = none) :
    ChainTo σ0 sid σ sid [sid] := by
  refine ⟨⟨by simp, List.chain'_singleton sid⟩, rfl, rfl, ?_, ?_⟩
  · show (0:ℝ) = (nodeAt σ sid).g
    rw [hg]
  · intro fuel _
    cases fuel with
    | zero => rfl
    | succ f =>
        simp only [reconstructPath_succ, hp]
        rfl

lemma chain_extend (σ0 : List Node) (sid : String) (σ : List Node)
    (p x : String) (q' : List String)
    (hch : ChainTo σ0 sid σ p q')
    (hpar : (nodeAt σ x).parent = some p)
    (hfindp : findNode σ p = some (nodeAt σ p))
    (hadj : x ∈ (nodeAt σ0 p).neighbors)
    (hg : (nodeAt σ x).g = (nodeAt σ p).g + distId σ0 p x) :
    ChainTo σ0 sid σ x (q' ++ [x]) := by
  obtain ⟨⟨hne, hc⟩, hh, hl, hcost, hrp⟩ := hch
  refine ⟨⟨by simp, ?_⟩, ?_, by simp, ?_, ?_⟩
  · rw [List.chain'_append]
    refine ⟨hc, List.chain'_singleton x, ?_⟩
    intro a ha b hb
    have ha2 : p = a := by
      rw [hl] at ha
      simpa using ha
    have hb2 : x = b := by simpa using hb
    rw [← ha2, ← hb2]
    exact hadj
  · cases q' with
    | nil => exact absurd rfl hne
    | cons c cs => simpa using hh
  · rw [idPathCost_append_single σ0 q' p x hl, hcost, hg]
  · intro fuel hfuel
    cases fuel with
    | zero =>
        exfalso
        have h1 : q'.length + 1 ≤ 1 := by simpa using hfuel
        have h2 : q'.length = 0 := by omega
        exact hne (List.length_eq_zero.mp h2)
    | succ f =>
        have hlen : q'.length ≤ f + 1 := by
          have : q'.length + 1 ≤ f + 2 := by simpa using hfuel
          omega
        rw [List.map_append]
        simp only [reconstructPath_succ, hpar, hfindp]
        rw [hrp f hlen]
        rfl

/-- Extension step driven by the invariant's `parentProps` data. -/
lemma chain_extend_from (σ0 : List Node) (t : Node) (sid : String) (σ : List Node)
    (openL closed closedE : List String)
    (hinv : AInv σ0 t sid σ openL closed closedE)
    (x p : String)
    (hp1 : (nodeAt σ x).parent = some p) (hp2 : p ∈ closed)
    (hp3 : x ∈ (nodeAt σ p).neighbors)
    (hp4 : (nodeAt σ x).g = (nodeAt σ p).g +
      haversineDistance (nodeAt σ p).lat (nodeAt σ p).lng
        (nodeAt σ x).lat (nodeAt σ x).lng)
    (q' : List String) (hch : ChainTo σ0 sid σ p q') :
    ChainTo σ0 sid σ x (q' ++ [x]) := by
  apply chain_extend σ0 sid σ p x q' hch hp1
  · exact mem_ids_frame hinv.frame (hinv.closedSub p hp2)
  · rw [← neighbors_structEq hinv.frame p]
    exact hp3
  · rw [distId_frame hinv.frame p x]
    exact hp4

/-- Every closed node carries a parent-chain certificate no longer
than its closing index plus one. -/
lemma chain_closed (σ0 : List Node) (t : Node) (sid : String) (σ : List Node)
    (openL closed closedE : List String)
    (hinv : AInv σ0 t sid σ openL closed closedE) :
    ∀ k : ℕ, ∀ hk : k < closed.length,
      ∃ q : List String,
        ChainTo σ0 sid σ (closed.get ⟨k, hk⟩) q ∧ q.length ≤ k + 1 := by
  intro k
  induction k using Nat.strong_induction_on with
  | _ k ih =>
      intro hk
      by_cases hxsid : closed.get ⟨k, hk⟩ = sid
      · refine ⟨[sid], ?_, by simp⟩
        rw [hxsid]
        exact chain_sid σ0 sid σ hinv.startG.1 hinv.startG.2
      · obtain ⟨p, hp1, hp2⟩ := hinv.closedOrder k hk hxsid
        obtain ⟨i, hi, hgi⟩ := List.mem_iff_getElem.mp hp2
        have hik : i < k := by
          have := hi
          simp only [List.length_take] at this
          omega
        have hilen : i < closed.length := by
          have := hi
          simp only [List.length_take, lt_min_iff] at this
          exact this.2
        have hgetp : closed.get ⟨i, hilen⟩ = p := by
          rw [← hgi]
          simp [List.getElem_take]
        obtain ⟨q', hch', hlen'⟩ := ih i hik hilen
        rw [hgetp] at hch'
        obtain ⟨p', hp'1, hp'2, hp'3, hp'4⟩ :=
          hinv.parentProps (closed.get ⟨k, hk⟩)
            (Or.inr (List.get_mem closed k hk)) hxsid
        have hpp : p' = p := Option.some.inj (hp'1.symm.trans hp1)
        rw [hpp] at hp'1 hp'2 hp'3 hp'4
        refine ⟨q' ++ [closed.get ⟨k, hk⟩], ?_, ?_⟩
        · exact chain_extend_from σ0 t sid σ openL closed closedE hinv
            (closed.get ⟨k, hk⟩) p hp'1 hp'2 hp'3 hp'4 q' hch'
        · simp only [List.length_append, List.length_singleton]
          omega

/-- Every open node carries a parent-chain certificate no longer than
the closed set plus one. -/
lemma chain_open (σ0 : List Node) (t : Node) (sid : String) (σ : List Node)
    (openL closed closedE : List String)
    (hinv : AInv σ0 t sid σ openL closed closedE)
    (x : String) (hx : x ∈ openL) :
    ∃ q : List String, ChainTo σ0 sid σ x q ∧ q.length ≤ closed.length + 1 := by
  by_cases hxsid : x = sid
  · refine ⟨[sid], ?_, by simp⟩
    rw [hxsid]
    exact chain_sid σ0 sid σ hinv.startG.1 hinv.startG.2
  · obtain ⟨p, hp1, hp2, hp3, hp4⟩ := hinv.parentProps x (Or.inl hx) hxsid
    obtain ⟨i, hilen, hgi⟩ := List.mem_iff_getElem.mp hp2
    obtain ⟨q', hch', hlen'⟩ := chain_closed σ0 t sid σ openL closed closedE hinv i hilen
    have hget : closed.get ⟨i, hilen⟩ = p := hgi
    rw [hget] at hch'
    refine ⟨q' ++ [x], ?_, ?_⟩
    · exact chain_extend_from σ0 t sid σ openL closed closedE hinv
        x p hp1 hp2 hp3 hp4 q' hch'
    · simp only [List.length_append, List.length_singleton]
      omega

lemma nodup_sub_length_le (l ids : List String) (hnd : l.Nodup)
    (hsub : ∀ x ∈ l, x ∈ ids) : l.length ≤ ids.length := by
  classical
  have h1 : l.toFinset ⊆ ids.toFinset := by
    intro x hx
    rw [List.mem_toFinset] at hx ⊢
    exact hsub x hx
  calc l.length = l.toFinset.card := (List.toFinset_card_of_nodup hnd).symm
    _ ≤ ids.toFinset.card := Finset.card_le_card h1
    _ ≤ ids.length := List.toFinset_card_le ids

lemma aStarLoop_cons (goal : Node) (fuel : ℕ) (σ : List Node) (o : String)
    (os closedSet : List String) :
    aStarLoop goal (fuel+1) σ (o :: os) closedSet =
      match findNode σ (pickMin σ o os) with
      | none => (none, σ)
      | some curN =>
          if pickMin σ o os = goal.id then
            (some (reconstructPath σ (σ.length + 1) curN), σ)
          else
            aStarLoop goal fuel
              (expand goal curN (closedSet ++ [pickMin σ o os]) σ
                ((o :: os).erase (pickMin σ o os))).1
              (expand goal curN (closedSet ++ [pickMin σ o os]) σ
                ((o :: os).erase (pickMin σ o os))).2
              (closedSet ++ [pickMin σ o os]) := rfl

/-- Main loop lemma: from a fully-expanded invariant state, a
successful search yields a path whose total distance is the cost of
some valid start-to-goal id path and is no larger than the cost of
every valid start-to-goal id path. -/
lemma aStarLoop_opt (σ0 : List Node) (t : Node) (sid : String) :
    ∀ (fuel : ℕ) (σ : List Node) (openL closed : List String),
      AInv σ0 t sid σ openL closed closed →
      ClosedOpt σ0 sid σ closed →
      ∀ (path : List Coord) (σ2 : List Node),
        aStarLoop t fuel σ openL closed = (some path, σ2) →
        (∃ qc : List String, ValidPath σ0 qc ∧ qc.head? = some sid ∧
            qc.getLast? = some t.id ∧ totalDistanceOf path = idPathCost σ0 qc) ∧
        ∀ q : List String, ValidPath σ0 q → q.head? = some sid →
          q.getLast? = some t.id → totalDistanceOf path ≤ idPathCost σ0 q := by
  intro fuel
  induction fuel with
  | zero =>
      intro σ openL closed _ _ path σ2 hres
      have hcontra : (none : Option (List Coord)) = some path := congrArg Prod.fst hres
      exact absurd hcontra (by simp)
  | succ fuel ih =>
      intro σ openL closed hinv hopt path σ2 hres
      cases openL with
      | nil =>
          have hcontra : (none : Option (List Coord)) = some path := congrArg Prod.fst hres
          exact absurd hcontra (by simp)
      | cons o os =>
          obtain ⟨hcur_mem, hcur_min⟩ := pickMin_spec σ os o
          rw [aStarLoop_cons] at hres
          set cur := pickMin σ o os with hcurdef
          have hcurids : cur ∈ σ.map Node.id := by
            rw [map_id_of_structEq hinv.frame]
            exact hinv.openSub cur hcur_mem
          have hfind : findNode σ cur = some (nodeAt σ cur) := findNode_of_mem_ids hcurids
          simp only [hfind] at hres
          by_cases hgoal : cur = t.id
          · rw [if_pos hgoal] at hres
            have hpath : reconstructPath σ (σ.length + 1) (nodeAt σ cur) = path := by
              have h1 := congrArg Prod.fst hres
              simpa using h1
            obtain ⟨qc, hch, hlen⟩ :=
              chain_open σ0 t sid σ (o :: os) closed closed hinv cur hcur_mem
            obtain ⟨hvp, hhd, hlst, hcost, hrp⟩ := hch
            have hlenσ : σ.length = σ0.length := by
              have h1 := congrArg List.length hinv.frame
              simpa using h1
            have hclen : closed.length ≤ σ0.length := by
              have h1 := nodup_sub_length_le closed (σ0.map Node.id)
                hinv.closedNodup hinv.closedSub
              simpa using h1
            have hfuelok : qc.length ≤ (σ.length + 1) + 1 := by omega
            have hdist : totalDistanceOf path = (nodeAt σ cur).g := by
              rw [← hpath, hrp (σ.length + 1) hfuelok, totalDistanceOf_map σ qc,
                idPathCost_structEq hinv.frame qc]
              exact hcost
            constructor
            · refine ⟨qc, hvp, hhd, ?_, ?_⟩
              · rw [← hgoal]
                exact hlst
              · rw [hdist, ← hcost]
            · intro q hq hh hl
              have hsel := select_opt σ0 t sid σ (o :: os) closed hinv hopt cur
                hcur_mem hcur_min q hq hh (by rw [hgoal]; exact hl)
              rw [hdist]
              exact hsel
          · rw [if_neg hgoal] at hres
            have hinvA := close_step σ0 t sid σ (o :: os) closed hinv cur hcur_mem hgoal
            have hcurid : (nodeAt σ cur).id = cur := findNode_eq_id σ cur (nodeAt σ cur) hfind
            have hexp0 : Expanded σ ((o :: os).erase cur) (closed ++ [cur]) cur [] := by
              intro nb hnb
              simp at hnb
            obtain ⟨hinvB, hfrozB, hexpB⟩ := relax_fold σ0 t sid (closed ++ [cur]) closed
              cur (nodeAt σ cur) (nodeAt σ cur).neighbors σ ((o :: os).erase cur) []
              hinvA (List.mem_append.mpr (Or.inr (List.mem_singleton_self cur))) rfl
              hcurid (fun nb hnb => hnb) hexp0
            simp only [List.nil_append] at hexpB
            have hinvC := inv_upgrade σ0 t sid _ _ closed cur (nodeAt σ cur)
              hinvB hfrozB hexpB
            have hoptC : ClosedOpt σ0 sid
                ((nodeAt σ cur).neighbors.foldl
                  (relaxNbr t (nodeAt σ cur) (closed ++ [cur]))
                  (σ, (o :: os).erase cur)).1 (closed ++ [cur]) :=
              closedOpt_fold σ0 sid t (nodeAt σ cur) (closed ++ [cur])
                (nodeAt σ cur).neighbors σ ((o :: os).erase cur)
                (closedOpt_extend σ0 t sid σ (o :: os) closed hinv hopt cur
                  hcur_mem hcur_min)
            exact ih _ _ (closed ++ [cur]) hinvC hoptC path σ2 hres

/-- The state set up by `aStar` before entering its loop (start node's
scratch fields initialised, open set `[start]`, closed set empty)
satisfies the loop invariants. -/
lemma aStar_init_inv (σ : List Node) (s t : Node)
    (hwf : WF σ) (hs : findNode σ s.id = some s) (ht : findNode σ t.id = some t)
    (hsp : s.parent = none) :
    AInv σ t s.id (updateNode σ s.id fun n =>
        { n with g := 0, h := s.distanceTo t, f := s.distanceTo t })
      [s.id] [] [] ∧
    ClosedOpt σ s.id (updateNode σ s.id fun n =>
        { n with g := 0, h := s.distanceTo t, f := s.distanceTo t }) [] := by
  set φ0 : Node → Node := fun n =>
    { n with g := 0, h := s.distanceTo t, f := s.distanceTo t } with hφ0
  have hself : nodeAt (updateNode σ s.id φ0) s.id = φ0 s :=
    nodeAt_updateNode_self σ s.id φ0 (fun n => rfl) s hs
  have hsid_mem : s.id ∈ σ.map Node.id := by
    rw [← findNode_isSome_iff σ s.id, hs]
    rfl
  constructor
  · refine {
      frame := structProj_updateNode σ s.id φ0 (fun n => rfl)
      idsNodup := hwf.1
      closure := hwf.2
      tFound := ht
      openNodup := List.nodup_singleton s.id
      closedNodup := List.nodup_nil
      disj := fun x _ h => List.not_mem_nil x h
      openSub := ?_
      closedSub := fun x hx => absurd hx (List.not_mem_nil x)
      closedESub := fun x hx => absurd hx (List.not_mem_nil x)
      goalOpen := List.not_mem_nil t.id
      startMem := Or.inl (List.mem_singleton_self s.id)
      startG := ?_
      gNonneg := ?_
      parentProps := ?_
      closedOrder := ?_
      fh := ?_
      closedExpanded := fun u hu => absurd hu (List.not_mem_nil u) }
    · intro x hx
      simp only [List.mem_singleton] at hx
      rw [hx]
      exact hsid_mem
    · rw [hself]
      exact ⟨rfl, hsp⟩
    · intro x hx
      rcases hx with h | h
      · simp only [List.mem_singleton] at h
        rw [h, hself]
      · exact absurd h (List.not_mem_nil x)
    · intro x hx hxsid
      exfalso
      rcases hx with h | h
      · simp only [List.mem_singleton] at h
        exact hxsid h
      · exact List.not_mem_nil x h
    · intro k hk
      exact absurd hk (by simp)
    · intro x hx
      simp only [List.mem_singleton] at hx
      rw [hx, hself]
      constructor
      · show s.distanceTo t = haversineDistance (φ0 s).lat (φ0 s).lng t.lat t.lng
        rfl
      · show s.distanceTo t = 0 + s.distanceTo t
        rw [zero_add]
  · intro u hu
    exact absurd hu (List.not_mem_nil u)

/-- C1: for every well-formed graph and any pair of contained nodes
`start`, `goal` with freshly initialised scratch fields, a path
returned by `aStar(start, goal)` has total geodesic cost no larger
than that of every valid start-to-goal id path of the graph. -/
theorem claim_C1 (σ : List Node) (s t : Node)
    (hwf : WF σ)
    (hs : findNode σ s.id = some s) (ht : findNode σ t.id = some t)
    (hfs : s.g = 0 ∧ s.h = 0 ∧ s.f = 0 ∧ s.parent = none)
    (hft : t.g = 0 ∧ t.h = 0 ∧ t.f = 0 ∧ t.parent = none)
    (path : List Coord) (σ2 : List Node)
    (hres : aStar σ (some s) (some t) = (some path, σ2))
    (q : List String) (hq : ValidPath σ q) (hqh : q.head? = some s.id)
    (hql : q.getLast? = some t.id) :
    totalDistanceOf path ≤ idPathCost σ q := by
  obtain ⟨hinv0, hopt0⟩ := aStar_init_inv σ s t hwf hs ht hfs.2.2.2
  have hres2 : aStarLoop t (σ.length + 1)
      (updateNode σ s.id fun n =>
        { n with g := 0, h := s.distanceTo t, f := s.distanceTo t })
      [s.id] [] = (some path, σ2) := hres
  exact (aStarLoop_opt σ t s.id (σ.length + 1) _ [s.id] [] hinv0 hopt0
    path σ2 hres2).2 q hq hqh hql

/-- C1 witness: the one-node graph, searching from the node to itself;
the returned single-coordinate path is optimal among valid paths. -/
theorem claim_C1_witness :
    totalDistanceOf [({ lat := 0, lng := 0 } : Coord)] ≤ idPathCost [nodeA] ["a"] :=
  claim_C1 [nodeA] nodeA nodeA (by decide) rfl rfl ⟨rfl, rfl, rfl, rfl⟩
    ⟨rfl, rfl, rfl, rfl⟩ [{ lat := 0, lng := 0 }]
    (aStar [nodeA] (some nodeA) (some nodeA)).2 rfl
    ["a"] ⟨by simp, List.chain'_singleton "a"⟩ rfl rfl

/-- C5: with start and goal present and fresh, if no valid id path
links them the search returns `none`; and whenever the open set is
empty the loop returns `none` regardless of the remaining state. -/
theorem claim_C5 (σ : List Node) (s t : Node)
    (hwf : WF σ)
    (hs : findNode σ s.id = some s) (ht : findNode σ t.id = some t)
    (hfs : s.g = 0 ∧ s.h = 0 ∧ s.f = 0 ∧ s.parent = none)
    (hft : t.g = 0 ∧ t.h = 0 ∧ t.f = 0 ∧ t.parent = none)
    (hnopath : ¬ ∃ q : List String, ValidPath σ q ∧ q.head? = some s.id ∧
      q.getLast? = some t.id) :
    (aStar σ (some s) (some t)).1 = none ∧
    ∀ (goal : Node) (fuel : ℕ) (σ2 : List Node) (closedSet : List String),
      (aStarLoop goal fuel σ2 [] closedSet).1 = none := by
  constructor
  · cases hresult : (aStar σ (some s) (some t)).1 with
    | none => rfl
    | some path =>
        exfalso
        obtain ⟨hinv0, hopt0⟩ := aStar_init_inv σ s t hwf hs ht hfs.2.2.2
        have hpair : aStar σ (some s) (some t) =
            ((aStar σ (some s) (some t)).1, (aStar σ (some s) (some t)).2) := rfl
        rw [hresult] at hpair
        have hres2 : aStarLoop t (σ.length + 1)
            (updateNode σ s.id fun n =>
              { n with g := 0, h := s.distanceTo t, f := s.distanceTo t })
            [s.id] [] = (some path, (aStar σ (some s) (some t)).2) := hpair
        obtain ⟨⟨qc, hvp, hh, hl, _⟩, _⟩ := aStarLoop_opt σ t s.id (σ.length + 1)
          _ [s.id] [] hinv0 hopt0 path _ hres2
        exact hnopath ⟨qc, hvp, hh, hl⟩
  · intro goal fuel σ2 closedSet
    cases fuel with
    | zero => rfl
    | succ f => rfl

/-- C5 witness: two isolated nodes; the search from one to the other
returns `none`. -/
theorem claim_C5_witness :
    (aStar [nodeA, nodeB] (some nodeA) (some nodeB)).1 = none := by
  refine (claim_C5 [nodeA, nodeB] nodeA nodeB (by decide) rfl rfl
    ⟨rfl, rfl, rfl, rfl⟩ ⟨rfl, rfl, rfl, rfl⟩ ?_).1
  rintro ⟨q, ⟨hne, hchain⟩, hh, hl⟩
  cases q with
  | nil => exact hne rfl
  | cons a0 rest =>
      have ha0 : a0 = "a" := by simpa using hh
      cases rest with
      | nil =>
          have hb : a0 = "b" := by simpa using hl
          rw [ha0] at hb
          exact absurd hb (by decide)
      | cons b0 rest2 =>
          obtain ⟨hadj, _⟩ := List.chain'_cons.mp hchain
          rw [ha0] at hadj
          have hempty : (nodeAt [nodeA, nodeB] "a").neighbors = [] := rfl
          rw [hempty] at hadj
          exact absurd hadj (List.not_mem_nil b0)

end GeoCache
